import Mathlib

/-!
OpenSolo timer subsystem.

A shallow embedding of `src/stm32/systime.cpp` (the SysTick timebase) and of the inline
register operations of `src/stm32/hwtimer.h`, followed by theorems about them.

Conventions of the embedding
* A C unsigned value of width `w` is a `Nat`, and every store reduces modulo `2 ^ w`.
* A C `int` expression used as a shift amount or channel number is an `Int`; an
  operation whose C behaviour is undefined (shift by a negative amount, shift that
  leaves the `int` range, array index out of range, division by zero, call through
  a null function pointer) yields `none`.
* A read of a hardware-driven volatile register is an argument of the operation
  (`live` in `SysTime.now`).
-/

/-! ## Platform constants -/

/-- The constants the sources take from headers that are not part of this unit:
`Sys::CPU_HZ` (sys.h) and the conversion helper `SysTime::hzTicks` (systime.h).
They are parameters of the embedding. -/
structure Platform where
  /-- The constant `Sys::CPU_HZ`, the core clock rate. -/
  CPU_HZ : Nat
  /-- The helper `SysTime::hzTicks`, number of ticks in one period of the given rate. -/
  hzTicks : Nat → Nat

/-- A sample instantiation: a 72 MHz core clock and nanosecond ticks. -/
def samplePlatform : Platform :=
  { CPU_HZ := 72000000, hzTicks := fun hz => 1000000000 / hz }

/-- Embeds `static const unsigned SYSTICK_HZ = (Sys::CPU_HZ / 8);` -/
def SYSTICK_HZ (pf : Platform) : Nat := (pf.CPU_HZ / 8) % 2 ^ 32

/-- Embeds `static const unsigned SYSTICK_IRQ_HZ = 50;` -/
def SYSTICK_IRQ_HZ : Nat := 50

/-- Embeds `static const uint32_t SYSTICK_RELOAD = (SYSTICK_HZ / SYSTICK_IRQ_HZ) - 1;`
(unsigned 32-bit subtraction). -/
def SYSTICK_RELOAD (pf : Platform) : Nat :=
  (SYSTICK_HZ pf / SYSTICK_IRQ_HZ + 2 ^ 32 - 1) % 2 ^ 32

/-! ## SysTime state -/

namespace SysTime

/-- Modelled from the spec: `SysTime::Ticks` is declared in systime.h, which is not part
of this unit; the spec calls it a fixed-width integer count of ticks. It is embedded as a
64-bit word: a natural number kept below `2 ^ 64` by every store. Below `2 ^ 63` a value is
the same number whether the 64-bit type is signed or unsigned. The fields and results of
type `Ticks` are written `Nat` below. -/
abbrev Ticks := Nat

/-- A value of type `SysTime::HeartbeatCallback`: a pointer to a zero-argument function.
`null` is `NULL`, `emptyHeartbeat` is the file-local no-op, `user fn` any other function. -/
inductive HeartbeatCallback where
  | null
  | emptyHeartbeat
  | user (fn : Nat)
  deriving DecidableEq, Repr

/-- The three SysTick registers of `NVIC` that systime.cpp writes. -/
structure NVIC_t where
  SysTick_CS : Nat
  SysTick_RELOAD : Nat
  SysTick : Nat
  deriving DecidableEq, Repr

/-- The file-scope state of systime.cpp together with the registers it programs.
`heartbeats` records the calls made through `heartbeatCb`: which function was called and
the value of `tickBase` at the moment of the call. -/
structure State where
  tickBase : Nat
  lastTick : Nat
  heartbeatCb : HeartbeatCallback
  NVIC : NVIC_t
  heartbeats : List (HeartbeatCallback × Nat)
  deriving DecidableEq, Repr

/-- The state of a freshly loaded image: zero-initialised statics. -/
def State.zero : State :=
  { tickBase := 0, lastTick := 0, heartbeatCb := .null,
    NVIC := { SysTick_CS := 0, SysTick_RELOAD := 0, SysTick := 0 }, heartbeats := [] }

/-- Embeds `void SysTime::init(HeartbeatCallback hbcb)` -/
def init (pf : Platform) (hbcb : HeartbeatCallback) (st : State) : State :=
  let st := { st with tickBase := 0 }
  let st := { st with lastTick := 0 }
  let st := { st with heartbeatCb := if hbcb = HeartbeatCallback.null then HeartbeatCallback.emptyHeartbeat else hbcb }
  let st := { st with NVIC := { st.NVIC with SysTick_CS := 0 } }
  let st := { st with NVIC := { st.NVIC with SysTick_RELOAD := SYSTICK_RELOAD pf } }
  let st := { st with NVIC := { st.NVIC with SysTick := 0 } }
  { st with NVIC := { st.NVIC with SysTick_CS := 3 } }

/-- Embeds `uint32_t fractional = SYSTICK_RELOAD - NVIC.SysTick;` where `live` is the value the
read of `NVIC.SysTick` delivers. -/
def fractionalOf (pf : Platform) (live : Nat) : Nat :=
  (SYSTICK_RELOAD pf + 2 ^ 32 - live % 2 ^ 32) % 2 ^ 32

/-- Embeds `(uint64_t)(hzTicks(SYSTICK_IRQ_HZ) * 0x100000000ULL / SYSTICK_RELOAD)` -/
def tickScale (pf : Platform) : Nat :=
  ((pf.hzTicks SYSTICK_IRQ_HZ * 0x100000000) % 2 ^ 64) / SYSTICK_RELOAD pf

/-- Embeds `(fractional * scale) >> 32` in unsigned 64-bit arithmetic. -/
def scaledFraction (pf : Platform) (fractional : Nat) : Nat :=
  ((fractional * tickScale pf) % 2 ^ 64) >>> 32

/-- The value of `t` after line 76 of systime.cpp: `tickBase` plus the scaled fraction. -/
def candidate (pf : Platform) (live : Nat) (st : State) : Nat :=
  (st.tickBase + scaledFraction pf (fractionalOf pf live)) % 2 ^ 64

/-- Embeds `SysTime::Ticks SysTime::now()`; `live` is the value read from `NVIC.SysTick`.
The result is the returned value and the state after the call; `none` when the
division by `SYSTICK_RELOAD` is a division by zero. -/
def now (pf : Platform) (live : Nat) (st : State) : Option (Nat × State) :=
  if SYSTICK_RELOAD pf = 0 then none
  else
    let t := candidate pf live st
    let t := if t < st.lastTick then (t + pf.hzTicks SYSTICK_IRQ_HZ) % 2 ^ 64 else t
    some (t, { st with lastTick := t })

end SysTime

/-- Embeds `IRQ_HANDLER ISR_SysTick()`: advance `tickBase`, then call through `heartbeatCb`.
The body of the callback lies outside this unit; the call is recorded in `heartbeats`.
`none` when `heartbeatCb` is the null pointer. -/
def ISR_SysTick (pf : Platform) (st : SysTime.State) : Option SysTime.State :=
  let st := { st with tickBase := (st.tickBase + pf.hzTicks SYSTICK_IRQ_HZ) % 2 ^ 64 }
  match st.heartbeatCb with
  | .null => none
  | cb => some { st with heartbeats := st.heartbeats ++ [(cb, st.tickBase)] }

namespace SysTime

/-- One step of an execution: a run of the rollover handler, or a call of `now()` that
reads `live` from the counter register. -/
inductive Step where
  | isr
  | now (live : Nat)
  deriving DecidableEq, Repr

/-- Run a sequence of steps, collecting the values returned by the `now()` calls;
`none` as soon as one step has no defined result. -/
def runSteps (pf : Platform) : List Step → State → Option (List Nat × State)
  | [], st => some ([], st)
  | .isr :: rest, st => (ISR_SysTick pf st).bind (runSteps pf rest)
  | .now live :: rest, st =>
    (now pf live st).bind fun r =>
      (runSteps pf rest r.2).map fun q => (r.1 :: q.1, q.2)

/-- Every counter reading of the sequence lies in `0..SYSTICK_RELOAD`. -/
def readingsInRange (pf : Platform) : List Step → Bool
  | [] => true
  | .isr :: rest => readingsInRange pf rest
  | .now live :: rest => decide (live ≤ SYSTICK_RELOAD pf) && readingsInRange pf rest

/-- Number of handler runs in a sequence. -/
def isrCount : List Step → Nat
  | [] => 0
  | .isr :: rest => isrCount rest + 1
  | .now _ :: rest => isrCount rest

/-- The sequence is empty or starts with a handler run. -/
def handlerNext : List Step → Bool
  | [] => true
  | .isr :: _ => true
  | .now _ :: _ => false

/-- Service discipline along an execution: whenever a `now()` call takes the
compensation branch (`t < lastTick`), the rollover handler runs before the next `now()`
call. -/
def serviced (pf : Platform) : List Step → State → Bool
  | [], _ => true
  | .isr :: rest, st => (ISR_SysTick pf st).all (serviced pf rest)
  | .now live :: rest, st =>
    (!(decide (candidate pf live st < st.lastTick)) || handlerNext rest) &&
      (now pf live st).all fun r => serviced pf rest r.2

/-- Every `now()` call of the execution finds `lastTick` at most one period above its
candidate: `lastTick <= t + hzTicks(SYSTICK_IRQ_HZ)`, with `t` the value before the
comparison `t < lastTick`. -/
def withinOnePeriod (pf : Platform) : List Step → State → Bool
  | [], _ => true
  | .isr :: rest, st => (ISR_SysTick pf st).all (withinOnePeriod pf rest)
  | .now live :: rest, st =>
    decide (st.lastTick ≤ candidate pf live st + pf.hzTicks SYSTICK_IRQ_HZ) &&
      (now pf live st).all fun r => withinOnePeriod pf rest r.2

end SysTime

/-! ## HwTimer: the inline register operations of hwtimer.h -/

/-- Modelled from the spec: `TIM_t` is declared in hw.h, which is not part of this unit.
The registers the inline operations touch are embedded as 32-bit memory-mapped words, and
`compareCapRegs` as the four per-channel compare/capture registers. -/
structure TIM_t where
  CR2 : Nat
  DIER : Nat
  SR : Nat
  EGR : Nat
  CCER : Nat
  CNT : Nat
  PSC : Nat
  ARR : Nat
  compareCapRegs : Fin 4 → Nat

/-- Every register holds a 32-bit value. -/
def TIM_t.wf (tim : TIM_t) : Prop :=
  tim.CR2 < 2 ^ 32 ∧ tim.DIER < 2 ^ 32 ∧ tim.SR < 2 ^ 32 ∧ tim.EGR < 2 ^ 32 ∧
  tim.CCER < 2 ^ 32 ∧ tim.CNT < 2 ^ 32 ∧ tim.PSC < 2 ^ 32 ∧ tim.ARR < 2 ^ 32 ∧
  ∀ i, tim.compareCapRegs i < 2 ^ 32

/-- The reset state: every register zero. -/
def TIM_t.zero : TIM_t :=
  { CR2 := 0, DIER := 0, SR := 0, EGR := 0, CCER := 0, CNT := 0, PSC := 0, ARR := 0,
    compareCapRegs := fun _ => 0 }

/-- The C expression `1 << n` on 32-bit `int`, as a bit pattern: defined when `n` is not
negative and the result is representable in `int`. -/
def shl1 (n : Int) : Option Nat :=
  if 0 ≤ n ∧ n ≤ 30 then some (1 <<< n.toNat) else none

/-- The C expression `~m` on 32-bit `int`, as a two's-complement bit pattern. -/
def not32 (m : Nat) : Nat := 2 ^ 32 - 1 - m

namespace HwTimer

/-- Embeds `enum Event` -/
inductive Event where
  | UpdateEvent
  | CC1GEvent
  | CC2GEvent
  | CC3GEvent
  | CC4GEvent
  | TriggerEvent
  deriving DecidableEq, Repr

/-- The enumerator values of `Event`. -/
def Event.mask : Event → Nat
  | .UpdateEvent => 1 <<< 0
  | .CC1GEvent => 1 <<< 1
  | .CC2GEvent => 1 <<< 2
  | .CC3GEvent => 1 <<< 3
  | .CC4GEvent => 1 <<< 4
  | .TriggerEvent => 1 <<< 6

/-- Embeds `enum MasterModeSelect` -/
inductive MasterModeSelect where
  | ResetTrigger
  | EnableTrigger
  | UpdateTrigger
  deriving DecidableEq, Repr

/-- The enumerator values of `MasterModeSelect`. -/
def MasterModeSelect.val : MasterModeSelect → Nat
  | .ResetTrigger => 0 <<< 4
  | .EnableTrigger => 1 <<< 4
  | .UpdateTrigger => 2 <<< 4

/-- Embeds `uint16_t status() const { return (tim->SR & tim->DIER); }` -/
def status (tim : TIM_t) : Nat := (tim.SR &&& tim.DIER) % 2 ^ 16

/-- Embeds `void clearStatus() const { tim->SR = 0; }` -/
def clearStatus (tim : TIM_t) : TIM_t := { tim with SR := 0 }

/-- Embeds `void configureTriggerOutput(MasterModeSelect mms) const { tim->CR2 = mms; }` -/
def configureTriggerOutput (mms : MasterModeSelect) (tim : TIM_t) : TIM_t :=
  { tim with CR2 := mms.val % 2 ^ 32 }

/-- Embeds `enableChannel`: `tim->SR &= ~(1 << ch); tim->CCER |= 1 << ((ch - 1) * 4);` -/
def enableChannel (ch : Int) (tim : TIM_t) : Option TIM_t :=
  match shl1 ch with
  | none => none
  | some m =>
    let tim := { tim with SR := (tim.SR &&& not32 m) % 2 ^ 32 }
    match shl1 ((ch - 1) * 4) with
    | none => none
    | some b => some { tim with CCER := (tim.CCER ||| b) % 2 ^ 32 }

/-- Embeds `disableChannel`: `tim->CCER &= ~(0x1 << ((ch - 1) * 4));` -/
def disableChannel (ch : Int) (tim : TIM_t) : Option TIM_t :=
  match shl1 ((ch - 1) * 4) with
  | none => none
  | some b => some { tim with CCER := (tim.CCER &&& not32 b) % 2 ^ 32 }

/-- Embeds `channelIsEnabled`: `return (tim->CCER & (1 << ((ch - 1) * 4))) != 0;` -/
def channelIsEnabled (ch : Int) (tim : TIM_t) : Option Bool :=
  match shl1 ((ch - 1) * 4) with
  | none => none
  | some b => some (decide (tim.CCER &&& b ≠ 0))

/-- The sub-expression `(ch-1 * 4)` of the complementary-output routines, with the
precedence of C: the product `1 * 4` is formed first. -/
def complementaryIndex (ch : Int) : Int := ch - 1 * 4

/-- Embeds `enableComplementaryOutput`: `tim->CCER |= (1 << ((ch-1 * 4) + 2));` -/
def enableComplementaryOutput (ch : Int) (tim : TIM_t) : Option TIM_t :=
  match shl1 (complementaryIndex ch + 2) with
  | none => none
  | some b => some { tim with CCER := (tim.CCER ||| b) % 2 ^ 32 }

/-- Embeds `disableComplementaryOutput`: `tim->CCER &= ~(1 << ((ch-1 * 4) + 2));` -/
def disableComplementaryOutput (ch : Int) (tim : TIM_t) : Option TIM_t :=
  match shl1 (complementaryIndex ch + 2) with
  | none => none
  | some b => some { tim with CCER := (tim.CCER &&& not32 b) % 2 ^ 32 }

/-- Embeds `invertComplementaryOutput`: `tim->CCER ^= (1 << ((ch-1 * 4) + 3));` -/
def invertComplementaryOutput (ch : Int) (tim : TIM_t) : Option TIM_t :=
  match shl1 (complementaryIndex ch + 3) with
  | none => none
  | some b => some { tim with CCER := (tim.CCER ^^^ b) % 2 ^ 32 }

/-- Embeds `enableCompareCaptureIsr`: `tim->SR &= ~(1 << ch); tim->DIER |= (1 << ch);` -/
def enableCompareCaptureIsr (ch : Int) (tim : TIM_t) : Option TIM_t :=
  match shl1 ch with
  | none => none
  | some m =>
    let tim := { tim with SR := (tim.SR &&& not32 m) % 2 ^ 32 }
    some { tim with DIER := (tim.DIER ||| m) % 2 ^ 32 }

/-- Embeds `disableCompareCaptureIsr`: `tim->DIER &= ~(1 << ch);` -/
def disableCompareCaptureIsr (ch : Int) (tim : TIM_t) : Option TIM_t :=
  match shl1 ch with
  | none => none
  | some m => some { tim with DIER := (tim.DIER &&& not32 m) % 2 ^ 32 }

/-- Embeds `enableUpdateIsr`: `tim->SR &= ~(1 << 0); tim->DIER |= (1 << 0);` -/
def enableUpdateIsr (tim : TIM_t) : TIM_t :=
  let tim := { tim with SR := (tim.SR &&& not32 (1 <<< 0)) % 2 ^ 32 }
  { tim with DIER := (tim.DIER ||| (1 <<< 0)) % 2 ^ 32 }

/-- Embeds `disableUpdateIsr`: `tim->DIER &= ~(1 << 0);` -/
def disableUpdateIsr (tim : TIM_t) : TIM_t :=
  { tim with DIER := (tim.DIER &&& not32 (1 <<< 0)) % 2 ^ 32 }

/-- Embeds `updateIsrIsEnabled`: `return tim->DIER & (1 << 0);` converted to `bool`. -/
def updateIsrIsEnabled (tim : TIM_t) : Bool :=
  decide (tim.DIER &&& (1 <<< 0) ≠ 0)

/-- The array index `ch - 1` into `compareCapRegs`; `none` outside the array. -/
def capIndex (ch : Int) : Option (Fin 4) :=
  if h : 1 ≤ ch ∧ ch ≤ 4 then some ⟨(ch - 1).toNat, by omega⟩ else none

/-- Embeds `uint16_t lastCapture(int ch) const { return tim->compareCapRegs[ch - 1].CCR; }` -/
def lastCapture (ch : Int) (tim : TIM_t) : Option Nat :=
  match capIndex ch with
  | none => none
  | some i => some (tim.compareCapRegs i % 2 ^ 16)

/-- Embeds `uint16_t count() const { return tim->CNT; }` -/
def count (tim : TIM_t) : Nat := tim.CNT % 2 ^ 16

/-- Embeds `void setCount(uint16_t c) const { tim->CNT = c; }` -/
def setCount (c : Nat) (tim : TIM_t) : TIM_t := { tim with CNT := c % 2 ^ 16 }

/-- Embeds `uint16_t period() const { return tim->ARR; }` -/
def period (tim : TIM_t) : Nat := tim.ARR % 2 ^ 16

/-- Embeds `setPeriod`: `tim->ARR = period_; tim->PSC = prescaler;` with `uint16_t` arguments. -/
def setPeriod (period_ prescaler : Nat) (tim : TIM_t) : TIM_t :=
  let tim := { tim with ARR := period_ % 2 ^ 16 }
  { tim with PSC := prescaler % 2 ^ 16 }

/-- Embeds `setDuty`: `tim->compareCapRegs[ch - 1].CCR = duty;` with a `uint16_t` duty. -/
def setDuty (ch : Int) (duty : Nat) (tim : TIM_t) : Option TIM_t :=
  match capIndex ch with
  | none => none
  | some i =>
    some { tim with compareCapRegs := Function.update tim.compareCapRegs i (duty % 2 ^ 16) }

/-- Embeds `void generateEvent(uint16_t mask) const { tim->EGR = mask; }` -/
def generateEvent (mask : Nat) (tim : TIM_t) : TIM_t := { tim with EGR := mask % 2 ^ 16 }

end HwTimer

/-! ## Arithmetic of the fixed-point scaling -/

namespace SysTime

theorem reload_lt (pf : Platform) : SYSTICK_RELOAD pf < 2 ^ 32 :=
  Nat.mod_lt _ (by norm_num)

theorem fractionalOf_of_le (pf : Platform) {live : Nat} (h : live ≤ SYSTICK_RELOAD pf) :
    fractionalOf pf live = SYSTICK_RELOAD pf - live := by
  have hR := reload_lt pf
  unfold fractionalOf
  rw [Nat.mod_eq_of_lt (by omega : live < 2 ^ 32)]
  omega

theorem fractionalOf_le (pf : Platform) {live : Nat} (h : live ≤ SYSTICK_RELOAD pf) :
    fractionalOf pf live ≤ SYSTICK_RELOAD pf := by
  rw [fractionalOf_of_le pf h]; omega

theorem tickScale_mul_le (pf : Platform) {f : Nat} (hf : f ≤ SYSTICK_RELOAD pf) :
    f * tickScale pf ≤ (pf.hzTicks SYSTICK_IRQ_HZ * 0x100000000) % 2 ^ 64 := by
  unfold tickScale
  exact le_trans (Nat.mul_le_mul_right _ hf) (Nat.mul_div_le _ _)

theorem scaledFraction_eq (pf : Platform) {f : Nat} (hf : f ≤ SYSTICK_RELOAD pf) :
    scaledFraction pf f = f * tickScale pf / 2 ^ 32 := by
  have h1 := tickScale_mul_le pf hf
  have h2 : (pf.hzTicks SYSTICK_IRQ_HZ * 0x100000000) % 2 ^ 64 < 2 ^ 64 :=
    Nat.mod_lt _ (by norm_num)
  unfold scaledFraction
  rw [Nat.mod_eq_of_lt (lt_of_le_of_lt h1 h2), Nat.shiftRight_eq_div_pow]

theorem scaledFraction_le (pf : Platform) {f : Nat} (hf : f ≤ SYSTICK_RELOAD pf) :
    scaledFraction pf f ≤ pf.hzTicks SYSTICK_IRQ_HZ := by
  have h1 := tickScale_mul_le pf hf
  have h3 : (pf.hzTicks SYSTICK_IRQ_HZ * 0x100000000) % 2 ^ 64
      ≤ pf.hzTicks SYSTICK_IRQ_HZ * 0x100000000 := Nat.mod_le _ _
  rw [scaledFraction_eq pf hf]
  omega

theorem scaledFraction_zero (pf : Platform) : scaledFraction pf 0 = 0 := by
  simp [scaledFraction]

/-- At the full reload value the scaled fraction misses one period by less than a tick. -/
theorem scaledFraction_reload_ge (pf : Platform) (hR : 0 < SYSTICK_RELOAD pf)
    (hP : pf.hzTicks SYSTICK_IRQ_HZ * 2 ^ 32 < 2 ^ 64) :
    pf.hzTicks SYSTICK_IRQ_HZ - 1 ≤ scaledFraction pf (SYSTICK_RELOAD pf) := by
  have hlt := reload_lt pf
  rw [scaledFraction_eq pf (le_refl _)]
  unfold tickScale
  have hX : (pf.hzTicks SYSTICK_IRQ_HZ * 0x100000000) % 2 ^ 64
      = pf.hzTicks SYSTICK_IRQ_HZ * 0x100000000 := Nat.mod_eq_of_lt (by omega)
  rw [hX]
  have hdm := Nat.div_add_mod (pf.hzTicks SYSTICK_IRQ_HZ * 0x100000000) (SYSTICK_RELOAD pf)
  have hm := Nat.mod_lt (pf.hzTicks SYSTICK_IRQ_HZ * 0x100000000) hR
  generalize SYSTICK_RELOAD pf * (pf.hzTicks SYSTICK_IRQ_HZ * 0x100000000 / SYSTICK_RELOAD pf) = q at *
  omega

/-! ## Single calls of `now()` -/

theorem now_eq (pf : Platform) (live : Nat) (st : State) (hR : SYSTICK_RELOAD pf ≠ 0) :
    now pf live st =
      some (if candidate pf live st < st.lastTick
              then (candidate pf live st + pf.hzTicks SYSTICK_IRQ_HZ) % 2 ^ 64
              else candidate pf live st,
            { st with lastTick := if candidate pf live st < st.lastTick
              then (candidate pf live st + pf.hzTicks SYSTICK_IRQ_HZ) % 2 ^ 64
              else candidate pf live st }) := by
  simp [now, hR]

theorem candidate_eq (pf : Platform) {live : Nat} (st : State)
    (hlive : live ≤ SYSTICK_RELOAD pf)
    (hrange : st.tickBase + pf.hzTicks SYSTICK_IRQ_HZ < 2 ^ 64) :
    candidate pf live st = st.tickBase + scaledFraction pf (SYSTICK_RELOAD pf - live) := by
  have hs := scaledFraction_le pf (fractionalOf_le pf hlive)
  unfold candidate
  rw [fractionalOf_of_le pf hlive] at *
  exact Nat.mod_eq_of_lt (by omega)

end SysTime

/-! ## Claims about single calls of `now()` -/

/-- C2 (rollover race): in a state whose `lastTick` was computed from the current
`tickBase` without compensation, `lastTick = tickBase + scaled(fPrev)` with `fPrev` in
`0..SYSTICK_RELOAD`, every call of `now()` with a live reading in `0..SYSTICK_RELOAD`
returns a value that is at least `lastTick`. The tick values are taken below `2 ^ 63`,
where they are the same number for a signed and an unsigned 64-bit `Ticks`. -/
theorem now_ge_lastTick_after_uncompensated (pf : Platform) (st : SysTime.State)
    (fPrev live : Nat)
    (hR : SYSTICK_RELOAD pf ≠ 0)
    (hprev : fPrev ≤ SYSTICK_RELOAD pf)
    (hlast : st.lastTick = st.tickBase + SysTime.scaledFraction pf fPrev)
    (hlive : live ≤ SYSTICK_RELOAD pf)
    (hrange : st.tickBase + 2 * pf.hzTicks SYSTICK_IRQ_HZ < 2 ^ 63) :
    ∃ v st', SysTime.now pf live st = some (v, st') ∧ st.lastTick ≤ v := by
  have hprevle := SysTime.scaledFraction_le pf hprev
  have hs := SysTime.scaledFraction_le pf (SysTime.fractionalOf_le pf hlive)
  rw [SysTime.fractionalOf_of_le pf hlive] at hs
  have hc := SysTime.candidate_eq pf st hlive (by omega)
  refine ⟨_, _, SysTime.now_eq pf live st hR, ?_⟩
  split
  · rw [hc, Nat.mod_eq_of_lt (by omega)]
    omega
  · omega

theorem now_ge_lastTick_after_uncompensated_witness :
    SYSTICK_RELOAD samplePlatform ≠ 0 ∧
    ∃ v st', SysTime.now samplePlatform 179000
        { SysTime.State.zero with tickBase := 40000000, lastTick := 59999999 }
          = some (v, st') ∧ 59999999 ≤ v :=
  ⟨by decide,
   now_ge_lastTick_after_uncompensated samplePlatform
     { SysTime.State.zero with tickBase := 40000000, lastTick := 59999999 }
     179999 179000 (by decide) (by decide) (by decide) (by decide) (by decide)⟩

/-- C3: with the candidate `t = tickBase + ((fractional * scale) >> 32)` (64-bit
arithmetic) and `fractional = SYSTICK_RELOAD - live` (32-bit arithmetic), `now()` returns
exactly `t` when `t >= lastTick` and exactly `t + hzTicks(SYSTICK_IRQ_HZ)` when
`t < lastTick`, and the state after the call is the state before it with `lastTick`
replaced by the returned value. When the reading is in `0..SYSTICK_RELOAD` and
`tickBase` is more than two periods below `2 ^ 64`, none of the operations wraps. -/
theorem now_returns_candidate_or_one_more_period (pf : Platform) (live : Nat)
    (st : SysTime.State) (hR : SYSTICK_RELOAD pf ≠ 0) :
    ∃ v st', SysTime.now pf live st = some (v, st') ∧
      SysTime.fractionalOf pf live = (SYSTICK_RELOAD pf + 2 ^ 32 - live % 2 ^ 32) % 2 ^ 32 ∧
      SysTime.candidate pf live st
        = (st.tickBase + ((SysTime.fractionalOf pf live * SysTime.tickScale pf) % 2 ^ 64) >>> 32)
            % 2 ^ 64 ∧
      (st.lastTick ≤ SysTime.candidate pf live st → v = SysTime.candidate pf live st) ∧
      (SysTime.candidate pf live st < st.lastTick →
        v = (SysTime.candidate pf live st + pf.hzTicks SYSTICK_IRQ_HZ) % 2 ^ 64) ∧
      st' = { st with lastTick := v } ∧
      (live ≤ SYSTICK_RELOAD pf → st.tickBase + 2 * pf.hzTicks SYSTICK_IRQ_HZ < 2 ^ 64 →
        SysTime.fractionalOf pf live = SYSTICK_RELOAD pf - live ∧
        SysTime.candidate pf live st
          = st.tickBase + (SYSTICK_RELOAD pf - live) * SysTime.tickScale pf / 2 ^ 32 ∧
        (SysTime.candidate pf live st < st.lastTick →
          v = SysTime.candidate pf live st + pf.hzTicks SYSTICK_IRQ_HZ)) := by
  refine ⟨_, _, SysTime.now_eq pf live st hR, rfl, rfl, ?_, ?_, rfl, ?_⟩
  · intro h; rw [if_neg (by omega)]
  · intro h; rw [if_pos h]
  · intro hlive hrange
    have hf := SysTime.fractionalOf_of_le pf hlive
    have hs := SysTime.scaledFraction_le pf (SysTime.fractionalOf_le pf hlive)
    rw [hf] at hs
    have hc := SysTime.candidate_eq pf st hlive (by omega)
    have he : SysTime.scaledFraction pf (SYSTICK_RELOAD pf - live)
        = (SYSTICK_RELOAD pf - live) * SysTime.tickScale pf / 2 ^ 32 :=
      SysTime.scaledFraction_eq pf (by omega)
    refine ⟨hf, by rw [hc, he], ?_⟩
    intro h
    rw [if_pos h, hc]
    exact Nat.mod_eq_of_lt (by omega)

theorem now_returns_candidate_or_one_more_period_witness :
    SYSTICK_RELOAD samplePlatform ≠ 0 ∧
    ∃ v st', SysTime.now samplePlatform 90000
        { SysTime.State.zero with tickBase := 40000000, lastTick := 59999999 }
          = some (v, st') ∧ v = 69999944 ∧ st'.lastTick = 69999944 := by
  refine ⟨by decide, ?_⟩
  obtain ⟨v, st', h, -, -, -, h2, h3, -⟩ :=
    now_returns_candidate_or_one_more_period samplePlatform 90000
      { SysTime.State.zero with tickBase := 40000000, lastTick := 59999999 } (by decide)
  have hv : v = 69999944 := h2 (by decide)
  exact ⟨v, st', h, hv, by rw [h3]; exact hv⟩

/-- C4: a call of `now()` made right after `init` (no handler run in between), with any
live reading in `0..SYSTICK_RELOAD`, returns a value between 0 and
`hzTicks(SYSTICK_IRQ_HZ)`; the reading 0 that `init` writes to the counter register is
one of them. -/
theorem now_after_init_within_one_period (pf : Platform) (hbcb : SysTime.HeartbeatCallback)
    (st0 : SysTime.State) (live : Nat)
    (hR : SYSTICK_RELOAD pf ≠ 0) (hlive : live ≤ SYSTICK_RELOAD pf) :
    (SysTime.init pf hbcb st0).NVIC.SysTick = 0 ∧
    ∃ v st', SysTime.now pf live (SysTime.init pf hbcb st0) = some (v, st') ∧
      0 ≤ v ∧ v ≤ pf.hzTicks SYSTICK_IRQ_HZ := by
  have hs := SysTime.scaledFraction_le pf (SysTime.fractionalOf_le pf hlive)
  refine ⟨rfl, _, _, SysTime.now_eq pf live _ hR, Nat.zero_le _, ?_⟩
  have h0 : (SysTime.init pf hbcb st0).lastTick = 0 := rfl
  have hb : (SysTime.init pf hbcb st0).tickBase = 0 := rfl
  rw [h0, if_neg (Nat.not_lt_zero _)]
  unfold SysTime.candidate
  rw [hb, Nat.zero_add]
  exact le_trans (Nat.mod_le _ _) hs

theorem now_after_init_within_one_period_witness :
    SYSTICK_RELOAD samplePlatform ≠ 0 ∧ 0 ≤ SYSTICK_RELOAD samplePlatform ∧
    (SysTime.init samplePlatform .null SysTime.State.zero).NVIC.SysTick = 0 ∧
    ∃ v st', SysTime.now samplePlatform 0 (SysTime.init samplePlatform .null SysTime.State.zero)
        = some (v, st') ∧ 0 ≤ v ∧ v ≤ samplePlatform.hzTicks SYSTICK_IRQ_HZ :=
  ⟨by decide, by decide,
   now_after_init_within_one_period samplePlatform .null SysTime.State.zero 0
     (by decide) (by decide)⟩

/-- C5, as stated, fails on the sample platform: at `fractional = SYSTICK_RELOAD` the
contributed component is 19999999 rather than 0, and at `fractional = 0` it is 0, which is
not within one tick of the period 20000000. -/
theorem swapped_endpoints_counterexample :
    samplePlatform.hzTicks SYSTICK_IRQ_HZ = 20000000 ∧
    SysTime.scaledFraction samplePlatform (SYSTICK_RELOAD samplePlatform) = 19999999 ∧
    SysTime.scaledFraction samplePlatform 0 = 0 ∧
    ¬ (SysTime.scaledFraction samplePlatform (SYSTICK_RELOAD samplePlatform) = 0 ∧
        samplePlatform.hzTicks SYSTICK_IRQ_HZ ≤ SysTime.scaledFraction samplePlatform 0 + 1 ∧
        SysTime.scaledFraction samplePlatform 0 ≤ samplePlatform.hzTicks SYSTICK_IRQ_HZ + 1) := by
  decide

/-- C5, amended: with `P = hzTicks(SYSTICK_IRQ_HZ)`, `P * 2^32 < 2^64`, the component
`(fractional * (P * 2^32 / SYSTICK_RELOAD)) >> 32` is 0 when `fractional = 0`, which is
the live reading `SYSTICK_RELOAD`, and is `P - 1` or `P` when
`fractional = SYSTICK_RELOAD`, which is the live reading 0. -/
theorem fractional_component_endpoints (pf : Platform)
    (hR : SYSTICK_RELOAD pf ≠ 0)
    (hP : pf.hzTicks SYSTICK_IRQ_HZ * 2 ^ 32 < 2 ^ 64) :
    SysTime.fractionalOf pf (SYSTICK_RELOAD pf) = 0 ∧
    SysTime.scaledFraction pf 0 = 0 ∧
    SysTime.fractionalOf pf 0 = SYSTICK_RELOAD pf ∧
    pf.hzTicks SYSTICK_IRQ_HZ - 1 ≤ SysTime.scaledFraction pf (SYSTICK_RELOAD pf) ∧
    SysTime.scaledFraction pf (SYSTICK_RELOAD pf) ≤ pf.hzTicks SYSTICK_IRQ_HZ := by
  refine ⟨?_, SysTime.scaledFraction_zero pf, ?_,
    SysTime.scaledFraction_reload_ge pf (Nat.pos_of_ne_zero hR) hP,
    SysTime.scaledFraction_le pf (le_refl _)⟩
  · rw [SysTime.fractionalOf_of_le pf (le_refl _)]; omega
  · rw [SysTime.fractionalOf_of_le pf (Nat.zero_le _)]; omega

theorem fractional_component_endpoints_witness :
    SYSTICK_RELOAD samplePlatform ≠ 0 ∧
    samplePlatform.hzTicks SYSTICK_IRQ_HZ * 2 ^ 32 < 2 ^ 64 ∧
    SysTime.fractionalOf samplePlatform (SYSTICK_RELOAD samplePlatform) = 0 ∧
    SysTime.scaledFraction samplePlatform 0 = 0 ∧
    SysTime.fractionalOf samplePlatform 0 = SYSTICK_RELOAD samplePlatform ∧
    samplePlatform.hzTicks SYSTICK_IRQ_HZ - 1
      ≤ SysTime.scaledFraction samplePlatform (SYSTICK_RELOAD samplePlatform) ∧
    SysTime.scaledFraction samplePlatform (SYSTICK_RELOAD samplePlatform)
      ≤ samplePlatform.hzTicks SYSTICK_IRQ_HZ :=
  ⟨by decide, by decide, fractional_component_endpoints samplePlatform (by decide) (by decide)⟩

/-! ## Sequences of handler runs and `now()` calls -/

theorem ISR_SysTick_eq (pf : Platform) (st : SysTime.State)
    (h : st.heartbeatCb ≠ SysTime.HeartbeatCallback.null) :
    ISR_SysTick pf st = some { st with
      tickBase := (st.tickBase + pf.hzTicks SYSTICK_IRQ_HZ) % 2 ^ 64,
      heartbeats := st.heartbeats ++
        [(st.heartbeatCb, (st.tickBase + pf.hzTicks SYSTICK_IRQ_HZ) % 2 ^ 64)] } := by
  unfold ISR_SysTick
  cases hcb : st.heartbeatCb <;> simp_all

theorem init_heartbeatCb_ne_null (pf : Platform) (hbcb : SysTime.HeartbeatCallback)
    (st0 : SysTime.State) :
    (SysTime.init pf hbcb st0).heartbeatCb ≠ SysTime.HeartbeatCallback.null := by
  by_cases h : hbcb = SysTime.HeartbeatCallback.null <;> simp [SysTime.init, h]

namespace SysTime

theorem runSteps_isr (pf : Platform) (rest : List Step) (st : State) :
    runSteps pf (Step.isr :: rest) st = (ISR_SysTick pf st).bind (runSteps pf rest) := rfl

theorem runSteps_now (pf : Platform) (live : Nat) (rest : List Step) (st : State) :
    runSteps pf (Step.now live :: rest) st =
      (now pf live st).bind fun r =>
        (runSteps pf rest r.2).map fun q => (r.1 :: q.1, q.2) := rfl

theorem serviced_isr (pf : Platform) (rest : List Step) (st : State) :
    serviced pf (Step.isr :: rest) st = (ISR_SysTick pf st).all (serviced pf rest) := rfl

theorem serviced_now (pf : Platform) (live : Nat) (rest : List Step) (st : State) :
    serviced pf (Step.now live :: rest) st =
      ((!(decide (candidate pf live st < st.lastTick)) || handlerNext rest) &&
        (now pf live st).all fun r => serviced pf rest r.2) := rfl

theorem runSteps_chain (pf : Platform) (hR : SYSTICK_RELOAD pf ≠ 0) :
    ∀ (steps : List Step) (st : State), st.heartbeatCb ≠ HeartbeatCallback.null →
      readingsInRange pf steps = true → serviced pf steps st = true →
      st.tickBase + (isrCount steps + 2) * pf.hzTicks SYSTICK_IRQ_HZ < 2 ^ 63 →
      (st.lastTick ≤ st.tickBase + pf.hzTicks SYSTICK_IRQ_HZ ∨
        (st.lastTick ≤ st.tickBase + 2 * pf.hzTicks SYSTICK_IRQ_HZ ∧
          handlerNext steps = true)) →
      ∃ vs st', runSteps pf steps st = some (vs, st') ∧
        List.Chain (· ≤ ·) st.lastTick vs := by
  intro steps
  induction steps with
  | nil =>
    intro st _ _ _ _ _
    exact ⟨[], st, rfl, List.Chain.nil⟩
  | cons s rest ih =>
    intro st hcb hread hserv hrange hinv
    have h2 : 2 * pf.hzTicks SYSTICK_IRQ_HZ ≤ (isrCount rest + 2) * pf.hzTicks SYSTICK_IRQ_HZ :=
      Nat.mul_le_mul_right _ (by omega)
    cases s with
    | isr =>
      have hisr := ISR_SysTick_eq pf st hcb
      have e1 : (isrCount rest + 1 + 2) * pf.hzTicks SYSTICK_IRQ_HZ
          = (isrCount rest + 2) * pf.hzTicks SYSTICK_IRQ_HZ + pf.hzTicks SYSTICK_IRQ_HZ := by
        ring
      simp only [isrCount] at hrange
      rw [e1] at hrange
      have hmod : (st.tickBase + pf.hzTicks SYSTICK_IRQ_HZ) % 2 ^ 64
          = st.tickBase + pf.hzTicks SYSTICK_IRQ_HZ := Nat.mod_eq_of_lt (by omega)
      rw [serviced_isr, hisr, Option.all_some] at hserv
      rw [runSteps_isr, hisr, Option.some_bind]
      simp only [readingsInRange] at hread
      refine ih _ hcb hread hserv ?_ ?_
      · simp only [hmod]; omega
      · left
        simp only [hmod]
        rcases hinv with h | ⟨h, _⟩ <;> omega
    | now live =>
      simp only [readingsInRange, Bool.and_eq_true, decide_eq_true_eq] at hread
      obtain ⟨hlive, hread⟩ := hread
      simp only [isrCount] at hrange
      have hL : st.lastTick ≤ st.tickBase + pf.hzTicks SYSTICK_IRQ_HZ := by
        rcases hinv with h | ⟨_, h⟩
        · exact h
        · simp [handlerNext] at h
      have hs := scaledFraction_le pf (fractionalOf_le pf hlive)
      rw [fractionalOf_of_le pf hlive] at hs
      have hc := candidate_eq pf st hlive (by omega)
      have hnow := now_eq pf live st hR
      rw [serviced_now, hnow, Option.all_some] at hserv
      simp only [Bool.and_eq_true, Bool.or_eq_true, Bool.not_eq_true',
        decide_eq_false_iff_not, not_lt] at hserv
      obtain ⟨hcomp, hserv⟩ := hserv
      rw [runSteps_now, hnow, Option.some_bind]
      by_cases hlt : candidate pf live st < st.lastTick
      · have hnext : handlerNext rest = true := by
          rcases hcomp with h | h
          · omega
          · exact h
        have hv : (candidate pf live st + pf.hzTicks SYSTICK_IRQ_HZ) % 2 ^ 64
            = candidate pf live st + pf.hzTicks SYSTICK_IRQ_HZ :=
          Nat.mod_eq_of_lt (by omega)
        simp only [if_pos hlt, hv] at hserv ⊢
        obtain ⟨vs, st', hrun, hchain⟩ :=
          ih { st with lastTick := candidate pf live st + pf.hzTicks SYSTICK_IRQ_HZ }
            hcb hread hserv hrange
          (Or.inr ⟨show candidate pf live st + pf.hzTicks SYSTICK_IRQ_HZ
              ≤ st.tickBase + 2 * pf.hzTicks SYSTICK_IRQ_HZ by omega, hnext⟩)
        refine ⟨_, st', by rw [hrun]; rfl, List.Chain.cons ?_ hchain⟩
        show st.lastTick ≤ candidate pf live st + pf.hzTicks SYSTICK_IRQ_HZ
        omega
      · simp only [if_neg hlt] at hserv ⊢
        obtain ⟨vs, st', hrun, hchain⟩ :=
          ih { st with lastTick := candidate pf live st } hcb hread hserv hrange
          (Or.inl (show candidate pf live st ≤ st.tickBase + pf.hzTicks SYSTICK_IRQ_HZ by omega))
        refine ⟨_, st', by rw [hrun]; rfl, List.Chain.cons ?_ hchain⟩
        show st.lastTick ≤ candidate pf live st
        omega

theorem withinOnePeriod_isr (pf : Platform) (rest : List Step) (st : State) :
    withinOnePeriod pf (Step.isr :: rest) st
      = (ISR_SysTick pf st).all (withinOnePeriod pf rest) := rfl

theorem withinOnePeriod_now (pf : Platform) (live : Nat) (rest : List Step) (st : State) :
    withinOnePeriod pf (Step.now live :: rest) st =
      (decide (st.lastTick ≤ candidate pf live st + pf.hzTicks SYSTICK_IRQ_HZ) &&
        (now pf live st).all fun r => withinOnePeriod pf rest r.2) := rfl

/-- Along an execution without wrap-around the returned values never decrease exactly
when every `now()` call finds `lastTick` at most one period above its candidate. -/
theorem runSteps_chain_iff (pf : Platform) (hR : SYSTICK_RELOAD pf ≠ 0) :
    ∀ (steps : List Step) (st : State), st.heartbeatCb ≠ HeartbeatCallback.null →
      readingsInRange pf steps = true →
      st.tickBase + (isrCount steps + 2) * pf.hzTicks SYSTICK_IRQ_HZ < 2 ^ 63 →
      ∃ vs st', runSteps pf steps st = some (vs, st') ∧
        (List.Chain (· ≤ ·) st.lastTick vs ↔ withinOnePeriod pf steps st = true) := by
  intro steps
  induction steps with
  | nil =>
    intro st _ _ _
    exact ⟨[], st, rfl, by simp [withinOnePeriod]⟩
  | cons s rest ih =>
    intro st hcb hread hrange
    have h2 : 2 * pf.hzTicks SYSTICK_IRQ_HZ ≤ (isrCount rest + 2) * pf.hzTicks SYSTICK_IRQ_HZ :=
      Nat.mul_le_mul_right _ (by omega)
    cases s with
    | isr =>
      have hisr := ISR_SysTick_eq pf st hcb
      have e1 : (isrCount rest + 1 + 2) * pf.hzTicks SYSTICK_IRQ_HZ
          = (isrCount rest + 2) * pf.hzTicks SYSTICK_IRQ_HZ + pf.hzTicks SYSTICK_IRQ_HZ := by
        ring
      simp only [isrCount] at hrange
      rw [e1] at hrange
      have hmod : (st.tickBase + pf.hzTicks SYSTICK_IRQ_HZ) % 2 ^ 64
          = st.tickBase + pf.hzTicks SYSTICK_IRQ_HZ := Nat.mod_eq_of_lt (by omega)
      rw [withinOnePeriod_isr, runSteps_isr, hisr, Option.some_bind, Option.all_some]
      simp only [readingsInRange] at hread
      refine ih _ hcb hread ?_
      simp only [hmod]; omega
    | now live =>
      simp only [readingsInRange, Bool.and_eq_true, decide_eq_true_eq] at hread
      obtain ⟨hlive, hread⟩ := hread
      simp only [isrCount] at hrange
      have hs := scaledFraction_le pf (fractionalOf_le pf hlive)
      rw [fractionalOf_of_le pf hlive] at hs
      have hc := candidate_eq pf st hlive (by omega)
      have hnow := now_eq pf live st hR
      rw [withinOnePeriod_now, runSteps_now, hnow, Option.some_bind, Option.all_some]
      by_cases hlt : candidate pf live st < st.lastTick
      · have hv : (candidate pf live st + pf.hzTicks SYSTICK_IRQ_HZ) % 2 ^ 64
            = candidate pf live st + pf.hzTicks SYSTICK_IRQ_HZ :=
          Nat.mod_eq_of_lt (by omega)
        simp only [if_pos hlt, hv]
        obtain ⟨vs, st', hrun, hiff⟩ :=
          ih { st with lastTick := candidate pf live st + pf.hzTicks SYSTICK_IRQ_HZ }
            hcb hread hrange
        refine ⟨_, st', by rw [hrun]; rfl, ?_⟩
        rw [List.chain_cons, Bool.and_eq_true, decide_eq_true_eq]
        exact and_congr Iff.rfl hiff
      · simp only [if_neg hlt]
        obtain ⟨vs, st', hrun, hiff⟩ :=
          ih { st with lastTick := candidate pf live st } hcb hread hrange
        refine ⟨_, st', by rw [hrun]; rfl, ?_⟩
        rw [List.chain_cons, Bool.and_eq_true, decide_eq_true_eq]
        refine and_congr ?_ hiff
        constructor <;> intro _ <;> omega

end SysTime

/-- C1, as stated, fails. After `init` on the sample platform, three `now()` calls with
the readings 0, 90000 and 179999 and no handler run in between (the counter wrapped
twice while the handler was held off) return 19999999, 29999944 and 20000000: the third
value is below the second. -/
theorem now_monotone_counterexample :
    SysTime.readingsInRange samplePlatform [.now 0, .now 90000, .now 179999] = true ∧
    (SysTime.runSteps samplePlatform [.now 0, .now 90000, .now 179999]
        (SysTime.init samplePlatform .null SysTime.State.zero)).map Prod.fst
      = some [19999999, 29999944, 20000000] ∧
    ¬ List.Chain' (· ≤ ·) [19999999, 29999944, 20000000] := by
  refine ⟨by decide, by decide, ?_⟩
  intro h
  rw [List.chain'_cons, List.chain'_cons] at h
  exact absurd h.2.1 (by decide)

/-- C1, amended: starting from the state left by `init`, for every finite sequence of
handler runs and `now()` calls with readings in `0..SYSTICK_RELOAD` whose tick values stay
below `2 ^ 63`, every step has a result, and every value returned by `now()` is at least
the value returned by the previous call exactly when each `now()` call finds `lastTick`
at most one period above its candidate `t`. This is the case in particular when every
`now()` call that takes the compensation branch is followed by a handler run before the
next `now()` call. -/
theorem now_monotone_iff_within_one_period (pf : Platform)
    (hbcb : SysTime.HeartbeatCallback) (st0 : SysTime.State) (steps : List SysTime.Step)
    (hR : SYSTICK_RELOAD pf ≠ 0)
    (hread : SysTime.readingsInRange pf steps = true)
    (hrange : (SysTime.isrCount steps + 2) * pf.hzTicks SYSTICK_IRQ_HZ < 2 ^ 63) :
    ∃ vs st', SysTime.runSteps pf steps (SysTime.init pf hbcb st0) = some (vs, st') ∧
      (List.Chain' (· ≤ ·) vs ↔
        SysTime.withinOnePeriod pf steps (SysTime.init pf hbcb st0) = true) ∧
      (SysTime.serviced pf steps (SysTime.init pf hbcb st0) = true →
        List.Chain' (· ≤ ·) vs) := by
  have h0 : (SysTime.init pf hbcb st0).lastTick = 0 := rfl
  have hb : (SysTime.init pf hbcb st0).tickBase = 0 := rfl
  have hcb := init_heartbeatCb_ne_null pf hbcb st0
  have hzero : ∀ l : List Nat, List.Chain (· ≤ ·) 0 l ↔ List.Chain' (· ≤ ·) l := by
    intro l
    cases l with
    | nil => simp
    | cons v rest =>
      rw [List.chain_cons]
      exact ⟨fun h => h.2, fun h => ⟨Nat.zero_le _, h⟩⟩
  obtain ⟨vs, st', hrun, hiff⟩ :=
    SysTime.runSteps_chain_iff pf hR steps (SysTime.init pf hbcb st0) hcb hread
      (by rw [hb]; omega)
  rw [h0, hzero] at hiff
  refine ⟨vs, st', hrun, hiff, ?_⟩
  intro hserv
  obtain ⟨vs2, st2, hrun2, hchain⟩ :=
    SysTime.runSteps_chain pf hR steps (SysTime.init pf hbcb st0) hcb hread hserv
      (by rw [hb]; omega) (Or.inl (by rw [h0]; exact Nat.zero_le _))
  rw [hrun] at hrun2
  have hvs : vs = vs2 := congrArg Prod.fst (Option.some.inj hrun2)
  rw [h0, hzero, ← hvs] at hchain
  exact hchain

theorem now_monotone_iff_within_one_period_witness :
    SYSTICK_RELOAD samplePlatform ≠ 0 ∧
    SysTime.readingsInRange samplePlatform [.now 0, .now 90000, .isr, .now 179999] = true ∧
    (SysTime.isrCount [.now 0, .now 90000, .isr, .now 179999] + 2)
      * samplePlatform.hzTicks SYSTICK_IRQ_HZ < 2 ^ 63 ∧
    SysTime.serviced samplePlatform [.now 0, .now 90000, .isr, .now 179999]
      (SysTime.init samplePlatform .null SysTime.State.zero) = true ∧
    ∃ vs st', SysTime.runSteps samplePlatform [.now 0, .now 90000, .isr, .now 179999]
        (SysTime.init samplePlatform .null SysTime.State.zero) = some (vs, st') ∧
      List.Chain' (· ≤ ·) vs := by
  refine ⟨by decide, by decide, by decide, by decide, ?_⟩
  obtain ⟨vs, st', hrun, -, hserv⟩ :=
    now_monotone_iff_within_one_period samplePlatform .null SysTime.State.zero
      [.now 0, .now 90000, .isr, .now 179999] (by decide) (by decide) (by decide)
  exact ⟨vs, st', hrun, hserv (by decide)⟩

/-! ## Bit-level facts about the register updates -/

theorem shl1_eq {n : Int} (h0 : 0 ≤ n) (h30 : n ≤ 30) : shl1 n = some (2 ^ n.toNat) := by
  unfold shl1
  rw [if_pos ⟨h0, h30⟩, Nat.one_shiftLeft]

theorem shl1_neg {n : Int} (h : n < 0) : shl1 n = none := by
  unfold shl1
  rw [if_neg (by omega)]

theorem two_pow_lt_word {k : Nat} (hk : k < 32) : 2 ^ k < 2 ^ 32 :=
  Nat.pow_lt_pow_right (by norm_num) hk

theorem testBit_high_of_lt {x i : Nat} (hx : x < 2 ^ 32) (hi : 32 ≤ i) :
    x.testBit i = false :=
  Nat.testBit_lt_two_pow (lt_of_lt_of_le hx (Nat.pow_le_pow_right (by norm_num) hi))

/-- Bits of `reg & ~(1 << k)` stored into a 32-bit register. -/
theorem testBit_clear (x k i : Nat) (hk : k < 32) :
    ((x &&& not32 (2 ^ k)) % 2 ^ 32).testBit i
      = (decide (i < 32) && (x.testBit i && !decide (k = i))) := by
  have h := two_pow_lt_word hk
  have e : not32 (2 ^ k) = 2 ^ 32 - (2 ^ k + 1) := by unfold not32; omega
  rw [Nat.testBit_mod_two_pow, Nat.testBit_and, e, Nat.testBit_two_pow_sub_succ h,
    Nat.testBit_two_pow]
  cases decide (i < 32) <;> cases x.testBit i <;> cases decide (k = i) <;> rfl

/-- Bits of `reg | (1 << k)` stored into a 32-bit register. -/
theorem testBit_set (x k i : Nat) :
    ((x ||| 2 ^ k) % 2 ^ 32).testBit i
      = (decide (i < 32) && (x.testBit i || decide (k = i))) := by
  rw [Nat.testBit_mod_two_pow, Nat.testBit_or, Nat.testBit_two_pow]

/-- Bits of `reg ^ (1 << k)` stored into a 32-bit register. -/
theorem testBit_toggle (x k i : Nat) :
    ((x ^^^ 2 ^ k) % 2 ^ 32).testBit i
      = (decide (i < 32) && (x.testBit i ^^ decide (k = i))) := by
  rw [Nat.testBit_mod_two_pow, Nat.testBit_xor, Nat.testBit_two_pow]

/-- The C test `(reg & (1 << k)) != 0` reads bit `k`. -/
theorem and_two_pow_ne_zero_iff (x k : Nat) : x &&& 2 ^ k ≠ 0 ↔ x.testBit k = true := by
  constructor
  · intro h
    by_contra hb
    apply h
    apply Nat.eq_of_testBit_eq
    intro i
    rw [Nat.testBit_and, Nat.testBit_two_pow, Nat.zero_testBit]
    by_cases hki : k = i
    · subst hki; simp [hb]
    · simp [hki]
  · intro hb h
    have : (x &&& 2 ^ k).testBit k = true := by
      rw [Nat.testBit_and, Nat.testBit_two_pow, hb]; simp
    rw [h, Nat.zero_testBit] at this
    exact Bool.noConfusion this

namespace HwTimer

theorem enableChannel_eq (k : Nat) (h1 : 1 ≤ k) (h4 : k ≤ 4) (tim : TIM_t) :
    enableChannel (k : Int) tim = some { tim with
      SR := (tim.SR &&& not32 (2 ^ k)) % 2 ^ 32,
      CCER := (tim.CCER ||| 2 ^ ((k - 1) * 4)) % 2 ^ 32 } := by
  have e1 : shl1 (k : Int) = some (2 ^ k) := by
    rw [shl1_eq (by omega) (by omega), Int.toNat_ofNat]
  have e2 : shl1 (((k : Int) - 1) * 4) = some (2 ^ ((k - 1) * 4)) := by
    rw [shl1_eq (by omega) (by omega)]
    congr 2
    omega
  simp only [enableChannel, e1, e2]

theorem disableChannel_eq (k : Nat) (h1 : 1 ≤ k) (h4 : k ≤ 4) (tim : TIM_t) :
    disableChannel (k : Int) tim = some { tim with
      CCER := (tim.CCER &&& not32 (2 ^ ((k - 1) * 4))) % 2 ^ 32 } := by
  have e2 : shl1 (((k : Int) - 1) * 4) = some (2 ^ ((k - 1) * 4)) := by
    rw [shl1_eq (by omega) (by omega)]
    congr 2
    omega
  simp only [disableChannel, e2]

theorem channelIsEnabled_eq (k : Nat) (h1 : 1 ≤ k) (h4 : k ≤ 4) (tim : TIM_t) :
    channelIsEnabled (k : Int) tim = some (tim.CCER.testBit ((k - 1) * 4)) := by
  have e2 : shl1 (((k : Int) - 1) * 4) = some (2 ^ ((k - 1) * 4)) := by
    rw [shl1_eq (by omega) (by omega)]
    congr 2
    omega
  simp only [channelIsEnabled, e2]
  congr 1
  rw [Bool.eq_iff_iff, decide_eq_true_iff]
  exact and_two_pow_ne_zero_iff _ _

end HwTimer

/-! ## Claims about the channel enable bits -/

/-- C6, as stated, fails for a channel that is already enabled: with `CCER = 1`,
`channelIsEnabled(1)` is true before `enableChannel(1)` and false after the following
`disableChannel(1)`. -/
theorem enable_disable_roundtrip_counterexample :
    HwTimer.channelIsEnabled 1 { TIM_t.zero with CCER := 1 } = some true ∧
    (((HwTimer.enableChannel 1 { TIM_t.zero with CCER := 1 }).bind
        (HwTimer.disableChannel 1)).bind (HwTimer.channelIsEnabled 1)) = some false := by
  decide

/-- C6, amended: for every register state and every channel `ch` in 1..4,
`enableChannel(ch)` followed by `disableChannel(ch)` leaves `channelIsEnabled(ch)` false;
this is the value it had before `enableChannel(ch)` exactly when the channel was not
enabled before. -/
theorem enable_then_disable_leaves_channel_disabled (tim : TIM_t) (ch : Int)
    (h1 : 1 ≤ ch) (h4 : ch ≤ 4) :
    ∃ t1 t2 before, HwTimer.enableChannel ch tim = some t1 ∧
      HwTimer.disableChannel ch t1 = some t2 ∧
      HwTimer.channelIsEnabled ch tim = some before ∧
      HwTimer.channelIsEnabled ch t2 = some false ∧
      (HwTimer.channelIsEnabled ch t2 = HwTimer.channelIsEnabled ch tim ↔ before = false) := by
  obtain ⟨k, rfl⟩ := Int.eq_ofNat_of_zero_le (by omega : 0 ≤ ch)
  have hk1 : 1 ≤ k := by omega
  have hk4 : k ≤ 4 := by omega
  have hoff : HwTimer.channelIsEnabled (k : Int)
      { tim with
        SR := (tim.SR &&& not32 (2 ^ k)) % 2 ^ 32,
        CCER := ((tim.CCER ||| 2 ^ ((k - 1) * 4)) % 2 ^ 32
          &&& not32 (2 ^ ((k - 1) * 4))) % 2 ^ 32 } = some false := by
    rw [HwTimer.channelIsEnabled_eq k hk1 hk4]
    congr 1
    show (((tim.CCER ||| 2 ^ ((k - 1) * 4)) % 2 ^ 32
      &&& not32 (2 ^ ((k - 1) * 4))) % 2 ^ 32).testBit ((k - 1) * 4) = false
    rw [testBit_clear _ _ _ (by omega)]
    simp
  refine ⟨_, _, _, HwTimer.enableChannel_eq k hk1 hk4 tim,
    HwTimer.disableChannel_eq k hk1 hk4 _, HwTimer.channelIsEnabled_eq k hk1 hk4 tim,
    hoff, ?_⟩
  rw [hoff, HwTimer.channelIsEnabled_eq k hk1 hk4 tim]
  constructor
  · intro h
    exact (Option.some.inj h).symm
  · intro h
    rw [h]

theorem enable_then_disable_leaves_channel_disabled_witness :
    (1 : Int) ≤ 3 ∧ (3 : Int) ≤ 4 ∧
    ∃ t1 t2 before, HwTimer.enableChannel 3 { TIM_t.zero with CCER := 0x1101 } = some t1 ∧
      HwTimer.disableChannel 3 t1 = some t2 ∧
      HwTimer.channelIsEnabled 3 { TIM_t.zero with CCER := 0x1101 } = some before ∧
      HwTimer.channelIsEnabled 3 t2 = some false ∧
      (HwTimer.channelIsEnabled 3 t2
          = HwTimer.channelIsEnabled 3 { TIM_t.zero with CCER := 0x1101 } ↔ before = false) :=
  ⟨by decide, by decide,
   enable_then_disable_leaves_channel_disabled { TIM_t.zero with CCER := 0x1101 } 3
     (by decide) (by decide)⟩

/-- C7: for every register state and every channel `ch` in 1..4, after
`enableChannel(ch)` bit `ch` of SR is clear, every other bit of SR is unchanged (bit 0,
the update flag, among them), and `channelIsEnabled(ch)` is true. -/
theorem enableChannel_clears_pending_and_enables (tim : TIM_t) (ch : Int)
    (hwf : tim.wf) (h1 : 1 ≤ ch) (h4 : ch ≤ 4) :
    ∃ t1, HwTimer.enableChannel ch tim = some t1 ∧
      t1.SR.testBit ch.toNat = false ∧
      (∀ i, i ≠ ch.toNat → t1.SR.testBit i = tim.SR.testBit i) ∧
      t1.SR.testBit 0 = tim.SR.testBit 0 ∧
      HwTimer.channelIsEnabled ch t1 = some true := by
  obtain ⟨k, rfl⟩ := Int.eq_ofNat_of_zero_le (by omega : 0 ≤ ch)
  have hk1 : 1 ≤ k := by omega
  have hk4 : k ≤ 4 := by omega
  have hSR : tim.SR < 2 ^ 32 := hwf.2.2.1
  have hother : ∀ i, i ≠ k →
      ((tim.SR &&& not32 (2 ^ k)) % 2 ^ 32).testBit i = tim.SR.testBit i := by
    intro i hi
    rw [testBit_clear _ _ _ (by omega)]
    by_cases h32 : i < 32
    · have hne : ¬ k = i := fun h => hi h.symm
      simp [h32, hne]
    · rw [testBit_high_of_lt hSR (by omega)]
      simp
  refine ⟨_, HwTimer.enableChannel_eq k hk1 hk4 tim, ?_, ?_, ?_, ?_⟩
  · rw [Int.toNat_ofNat]
    show ((tim.SR &&& not32 (2 ^ k)) % 2 ^ 32).testBit k = false
    rw [testBit_clear _ _ _ (by omega)]
    simp
  · intro i hi
    rw [Int.toNat_ofNat] at hi
    exact hother i hi
  · exact hother 0 (by omega)
  · rw [HwTimer.channelIsEnabled_eq k hk1 hk4]
    congr 1
    show ((tim.CCER ||| 2 ^ ((k - 1) * 4)) % 2 ^ 32).testBit ((k - 1) * 4) = true
    rw [testBit_set]
    have : (k - 1) * 4 < 32 := by omega
    simp [this]

theorem enableChannel_clears_pending_and_enables_witness :
    ({ TIM_t.zero with SR := 0x1f } : TIM_t).wf ∧ (1 : Int) ≤ 2 ∧ (2 : Int) ≤ 4 ∧
    ∃ t1, HwTimer.enableChannel 2 { TIM_t.zero with SR := 0x1f } = some t1 ∧
      t1.SR.testBit (2 : Int).toNat = false ∧
      (∀ i, i ≠ (2 : Int).toNat →
        t1.SR.testBit i = ({ TIM_t.zero with SR := 0x1f } : TIM_t).SR.testBit i) ∧
      t1.SR.testBit 0 = ({ TIM_t.zero with SR := 0x1f } : TIM_t).SR.testBit 0 ∧
      HwTimer.channelIsEnabled 2 t1 = some true :=
  ⟨by simp [TIM_t.wf, TIM_t.zero], by decide, by decide,
   enableChannel_clears_pending_and_enables { TIM_t.zero with SR := 0x1f } 2
     (by simp [TIM_t.wf, TIM_t.zero]) (by decide) (by decide)⟩

/-! ## Claims about the complementary-output routines -/

/-- C8: the routines evaluated on channels 1..3. For channel 2, `enableComplementaryOutput`
sets bit 0 of CCER and leaves bit 6 clear, `disableComplementaryOutput` clears bit 0 and
leaves bit 6 set, and `invertComplementaryOutput` toggles bit 1 and leaves bit 7; for
channel 3 the enable routine sets bit 1 and leaves bit 10 clear; for channel 1 the shift
amount of the enable routine is negative and the call has no defined result. -/
theorem complementaryOutput_addresses_wrong_bit :
    (HwTimer.enableComplementaryOutput 2 TIM_t.zero).map (fun t => t.CCER) = some 1 ∧
    (HwTimer.enableComplementaryOutput 2 TIM_t.zero).map
      (fun t => t.CCER.testBit ((2 - 1) * 4 + 2)) = some false ∧
    (HwTimer.disableComplementaryOutput 2 { TIM_t.zero with CCER := 0x41 }).map
      (fun t => t.CCER) = some 0x40 ∧
    (HwTimer.invertComplementaryOutput 2 TIM_t.zero).map (fun t => t.CCER) = some 2 ∧
    (HwTimer.invertComplementaryOutput 2 TIM_t.zero).map
      (fun t => t.CCER.testBit ((2 - 1) * 4 + 3)) = some false ∧
    (HwTimer.enableComplementaryOutput 3 TIM_t.zero).map (fun t => t.CCER) = some 2 ∧
    (HwTimer.enableComplementaryOutput 3 TIM_t.zero).map
      (fun t => t.CCER.testBit ((3 - 1) * 4 + 2)) = some false ∧
    (HwTimer.enableComplementaryOutput 1 TIM_t.zero).isNone = true ∧
    (HwTimer.disableComplementaryOutput 1 TIM_t.zero).isNone = true := by
  decide

/-- C9: the sub-expression `(ch-1 * 4)` evaluates to `ch - 4` for every `ch`, so the
shift amount is `ch - 2` in the enable and disable routines and `ch - 1` in the invert
routine, and these are the bits the three routines address. The shift amounts equal the
per-channel-stride indices `(ch-1)*4 + 2` and `(ch-1)*4 + 3` only for `ch = 0`, hence for
no `ch` in 1..4. For `ch = 1` the enable/disable shift amount is negative and the two
routines have no defined result. -/
theorem complementaryIndex_is_ch_minus_four (ch : Int) (tim : TIM_t) :
    HwTimer.complementaryIndex ch = ch - 4 ∧
    HwTimer.complementaryIndex ch + 2 = ch - 2 ∧
    HwTimer.complementaryIndex ch + 3 = ch - 1 ∧
    HwTimer.enableComplementaryOutput ch tim
      = (shl1 (ch - 2)).map (fun b => { tim with CCER := (tim.CCER ||| b) % 2 ^ 32 }) ∧
    HwTimer.disableComplementaryOutput ch tim
      = (shl1 (ch - 2)).map (fun b => { tim with CCER := (tim.CCER &&& not32 b) % 2 ^ 32 }) ∧
    HwTimer.invertComplementaryOutput ch tim
      = (shl1 (ch - 1)).map (fun b => { tim with CCER := (tim.CCER ^^^ b) % 2 ^ 32 }) ∧
    (HwTimer.complementaryIndex ch + 2 = (ch - 1) * 4 + 2 ↔ ch = 0) ∧
    (HwTimer.complementaryIndex ch + 3 = (ch - 1) * 4 + 3 ↔ ch = 0) ∧
    HwTimer.complementaryIndex 1 + 2 < 0 ∧
    HwTimer.enableComplementaryOutput 1 tim = none ∧
    HwTimer.disableComplementaryOutput 1 tim = none := by
  have e0 : HwTimer.complementaryIndex ch = ch - 4 := by
    unfold HwTimer.complementaryIndex; omega
  have e2 : HwTimer.complementaryIndex ch + 2 = ch - 2 := by omega
  have e3 : HwTimer.complementaryIndex ch + 3 = ch - 1 := by omega
  have n1 : shl1 (HwTimer.complementaryIndex 1 + 2) = none := shl1_neg (by decide)
  refine ⟨e0, e2, e3, ?_, ?_, ?_, by omega, by omega, by decide, ?_, ?_⟩
  · unfold HwTimer.enableComplementaryOutput
    rw [e2]
    cases shl1 (ch - 2) <;> rfl
  · unfold HwTimer.disableComplementaryOutput
    rw [e2]
    cases shl1 (ch - 2) <;> rfl
  · unfold HwTimer.invertComplementaryOutput
    rw [e3]
    cases shl1 (ch - 1) <;> rfl
  · unfold HwTimer.enableComplementaryOutput
    rw [n1]
  · unfold HwTimer.disableComplementaryOutput
    rw [n1]

/-! ## Claims about `status()` -/

/-- C10: `status()` is the bitwise AND of SR and DIER truncated to 16 bits. When bit `ch`
of DIER is clear (for a channel, `ch` in 1..4), bit `ch` of `status()` is clear whatever
SR holds, also after `generateEvent(UpdateEvent)`, which leaves DIER as it was. -/
theorem status_masks_disabled_interrupt (tim : TIM_t) (ch : Nat)
    (hd : tim.DIER.testBit ch = false) :
    HwTimer.status tim = (tim.SR &&& tim.DIER) % 2 ^ 16 ∧
    (HwTimer.status tim).testBit ch = false ∧
    (∀ sr, (HwTimer.status { tim with SR := sr }).testBit ch = false) ∧
    (HwTimer.generateEvent (HwTimer.Event.mask .UpdateEvent) tim).DIER = tim.DIER ∧
    (HwTimer.status (HwTimer.generateEvent (HwTimer.Event.mask .UpdateEvent) tim)).testBit ch
      = false ∧
    (∀ sr, (HwTimer.status
      { HwTimer.generateEvent (HwTimer.Event.mask .UpdateEvent) tim with SR := sr }).testBit ch
        = false) := by
  have key : ∀ sr, ((sr &&& tim.DIER) % 2 ^ 16).testBit ch = false := by
    intro sr
    rw [Nat.testBit_mod_two_pow, Nat.testBit_and, hd]
    simp
  exact ⟨rfl, key _, fun sr => key sr, rfl, key _, fun sr => key sr⟩

theorem status_masks_disabled_interrupt_witness :
    ({ TIM_t.zero with SR := 0x1f, DIER := 0x1b } : TIM_t).DIER.testBit 2 = false ∧
    (HwTimer.status { TIM_t.zero with SR := 0x1f, DIER := 0x1b }).testBit 2 = false ∧
    (HwTimer.status (HwTimer.generateEvent (HwTimer.Event.mask .UpdateEvent)
      { TIM_t.zero with SR := 0x1f, DIER := 0x1b })).testBit 2 = false :=
  ⟨by decide,
   (status_masks_disabled_interrupt { TIM_t.zero with SR := 0x1f, DIER := 0x1b } 2
     (by decide)).2.1,
   (status_masks_disabled_interrupt { TIM_t.zero with SR := 0x1f, DIER := 0x1b } 2
     (by decide)).2.2.2.2.1⟩

/-! ## Claims about period, prescaler and compare registers -/

/-- C11: for every register state and all 16-bit `p` and `ps`, after `setPeriod(p, ps)`
the call `period()` returns exactly `p`, the register PSC holds exactly `ps`, and the
counter CNT and every compare/capture register are unchanged. -/
theorem setPeriod_then_period (tim : TIM_t) (p ps : Nat)
    (hp : p < 2 ^ 16) (hps : ps < 2 ^ 16) :
    HwTimer.period (HwTimer.setPeriod p ps tim) = p ∧
    (HwTimer.setPeriod p ps tim).ARR = p ∧
    (HwTimer.setPeriod p ps tim).PSC = ps ∧
    (HwTimer.setPeriod p ps tim).CNT = tim.CNT ∧
    HwTimer.count (HwTimer.setPeriod p ps tim) = HwTimer.count tim ∧
    (HwTimer.setPeriod p ps tim).compareCapRegs = tim.compareCapRegs ∧
    (∀ ch, HwTimer.lastCapture ch (HwTimer.setPeriod p ps tim) = HwTimer.lastCapture ch tim) := by
  have e1 : p % 2 ^ 16 = p := Nat.mod_eq_of_lt hp
  have e2 : ps % 2 ^ 16 = ps := Nat.mod_eq_of_lt hps
  refine ⟨?_, e1, e2, rfl, rfl, rfl, fun ch => rfl⟩
  show (p % 2 ^ 16) % 2 ^ 16 = p
  rw [e1, e1]

theorem setPeriod_then_period_witness :
    (999 : Nat) < 2 ^ 16 ∧ (71 : Nat) < 2 ^ 16 ∧
    HwTimer.period (HwTimer.setPeriod 999 71 { TIM_t.zero with CNT := 5, ARR := 0xffff }) = 999 ∧
    (HwTimer.setPeriod 999 71 { TIM_t.zero with CNT := 5, ARR := 0xffff }).PSC = 71 ∧
    (HwTimer.setPeriod 999 71 { TIM_t.zero with CNT := 5, ARR := 0xffff }).CNT = 5 :=
  ⟨by decide, by decide,
   (setPeriod_then_period { TIM_t.zero with CNT := 5, ARR := 0xffff } 999 71
     (by decide) (by decide)).1,
   (setPeriod_then_period { TIM_t.zero with CNT := 5, ARR := 0xffff } 999 71
     (by decide) (by decide)).2.2.1,
   (setPeriod_then_period { TIM_t.zero with CNT := 5, ARR := 0xffff } 999 71
     (by decide) (by decide)).2.2.2.1⟩

theorem capIndex_eq {ch : Int} (h1 : 1 ≤ ch) (h4 : ch ≤ 4) :
    HwTimer.capIndex ch = some ⟨(ch - 1).toNat, by omega⟩ := by
  unfold HwTimer.capIndex
  rw [dif_pos ⟨h1, h4⟩]

theorem setDuty_eq (tim : TIM_t) {ch : Int} (d : Nat) (h1 : 1 ≤ ch) (h4 : ch ≤ 4) :
    HwTimer.setDuty ch d tim = some { tim with
      compareCapRegs :=
        Function.update tim.compareCapRegs ⟨(ch - 1).toNat, by omega⟩ (d % 2 ^ 16) } := by
  simp only [HwTimer.setDuty, capIndex_eq h1 h4]

theorem lastCapture_eq (tim : TIM_t) {ch : Int} (h1 : 1 ≤ ch) (h4 : ch ≤ 4) :
    HwTimer.lastCapture ch tim
      = some (tim.compareCapRegs ⟨(ch - 1).toNat, by omega⟩ % 2 ^ 16) := by
  simp only [HwTimer.lastCapture, capIndex_eq h1 h4]

/-- C12: for every register state, every channel `ch` in 1..4 and every 16-bit `d`, after
`setDuty(ch, d)` the call `lastCapture(ch)` returns exactly `d`, and `lastCapture(ch')` is
unchanged for every other channel `ch'` in 1..4. -/
theorem setDuty_then_lastCapture (tim : TIM_t) (ch : Int) (d : Nat)
    (h1 : 1 ≤ ch) (h4 : ch ≤ 4) (hd : d < 2 ^ 16) :
    ∃ t1, HwTimer.setDuty ch d tim = some t1 ∧
      HwTimer.lastCapture ch t1 = some d ∧
      (∀ ch' : Int, 1 ≤ ch' → ch' ≤ 4 → ch' ≠ ch →
        ∃ c, HwTimer.lastCapture ch' tim = some c ∧ HwTimer.lastCapture ch' t1 = some c) := by
  have ed : d % 2 ^ 16 = d := Nat.mod_eq_of_lt hd
  refine ⟨_, setDuty_eq tim d h1 h4, ?_, ?_⟩
  · rw [lastCapture_eq _ h1 h4]
    simp only [Function.update_same]
    rw [ed, ed]
  · intro ch' h1' h4' hne
    have hij : (⟨(ch' - 1).toNat, by omega⟩ : Fin 4) ≠ ⟨(ch - 1).toNat, by omega⟩ := by
      intro h
      have := congrArg Fin.val h
      simp only [] at this
      omega
    refine ⟨_, lastCapture_eq tim h1' h4', ?_⟩
    rw [lastCapture_eq _ h1' h4']
    simp only [Function.update_noteq hij]

theorem setDuty_then_lastCapture_witness :
    (1 : Int) ≤ 3 ∧ (3 : Int) ≤ 4 ∧ (1234 : Nat) < 2 ^ 16 ∧
    ∃ t1, HwTimer.setDuty 3 1234 TIM_t.zero = some t1 ∧
      HwTimer.lastCapture 3 t1 = some 1234 ∧
      (∀ ch' : Int, 1 ≤ ch' → ch' ≤ 4 → ch' ≠ 3 →
        ∃ c, HwTimer.lastCapture ch' TIM_t.zero = some c ∧
          HwTimer.lastCapture ch' t1 = some c) :=
  ⟨by decide, by decide, by decide,
   setDuty_then_lastCapture TIM_t.zero 3 1234 (by decide) (by decide) (by decide)⟩

/-! ## Claims about the rollover handler, the writers of the state and `init` -/

/-- C13: in every state with an installed (non-null) heartbeat callback, one run of
`ISR_SysTick` replaces `tickBase` by `tickBase + hzTicks(SYSTICK_IRQ_HZ)` modulo `2 ^ 64`
(exactly the sum when it does not wrap) and then calls the installed callback exactly
once: one call is added to the record, of the installed callback, and the `tickBase` it
can read is the advanced one. -/
theorem ISR_SysTick_advances_then_calls_once (pf : Platform) (st : SysTime.State)
    (hcb : st.heartbeatCb ≠ SysTime.HeartbeatCallback.null) :
    ∃ st', ISR_SysTick pf st = some st' ∧
      st'.tickBase = (st.tickBase + pf.hzTicks SYSTICK_IRQ_HZ) % 2 ^ 64 ∧
      (st.tickBase + pf.hzTicks SYSTICK_IRQ_HZ < 2 ^ 64 →
        st'.tickBase = st.tickBase + pf.hzTicks SYSTICK_IRQ_HZ) ∧
      st'.heartbeats = st.heartbeats ++ [(st.heartbeatCb, st'.tickBase)] ∧
      st'.heartbeats.length = st.heartbeats.length + 1 := by
  refine ⟨_, ISR_SysTick_eq pf st hcb, rfl, ?_, rfl, ?_⟩
  · intro h
    exact Nat.mod_eq_of_lt h
  · simp

theorem ISR_SysTick_advances_then_calls_once_witness :
    (SysTime.init samplePlatform (.user 7) SysTime.State.zero).heartbeatCb
      ≠ SysTime.HeartbeatCallback.null ∧
    ∃ st', ISR_SysTick samplePlatform (SysTime.init samplePlatform (.user 7) SysTime.State.zero)
        = some st' ∧
      st'.tickBase = 20000000 ∧
      st'.heartbeats = [(SysTime.HeartbeatCallback.user 7, 20000000)] := by
  refine ⟨by decide, ?_⟩
  obtain ⟨st', h, hb, -, hh, -⟩ :=
    ISR_SysTick_advances_then_calls_once samplePlatform
      (SysTime.init samplePlatform (.user 7) SysTime.State.zero) (by decide)
  have hb' : st'.tickBase = 20000000 := by rw [hb]; decide
  refine ⟨st', h, hb', ?_⟩
  rw [hh, hb']
  rfl

/-- C14 (single-writer discipline): `now()` changes no part of the state other than
`lastTick`, so `tickBase` and the heartbeat callback are as before; the update made by
the rollover handler leaves `lastTick` and the heartbeat callback as before, the only
state variable it writes being `tickBase`. -/
theorem single_writer_discipline (pf : Platform) (st : SysTime.State) (live : Nat)
    (hR : SYSTICK_RELOAD pf ≠ 0)
    (hcb : st.heartbeatCb ≠ SysTime.HeartbeatCallback.null) :
    (∃ v st', SysTime.now pf live st = some (v, st') ∧
      st'.tickBase = st.tickBase ∧ st'.heartbeatCb = st.heartbeatCb ∧
      st'.NVIC = st.NVIC ∧ st'.heartbeats = st.heartbeats ∧
      st' = { st with lastTick := v }) ∧
    (∃ st', ISR_SysTick pf st = some st' ∧
      st'.lastTick = st.lastTick ∧ st'.heartbeatCb = st.heartbeatCb ∧
      st'.NVIC = st.NVIC ∧
      { st' with tickBase := st.tickBase, heartbeats := st.heartbeats } = st) :=
  ⟨⟨_, _, SysTime.now_eq pf live st hR, rfl, rfl, rfl, rfl, rfl⟩,
   ⟨_, ISR_SysTick_eq pf st hcb, rfl, rfl, rfl, rfl⟩⟩

theorem single_writer_discipline_witness :
    SYSTICK_RELOAD samplePlatform ≠ 0 ∧
    (SysTime.init samplePlatform .null SysTime.State.zero).heartbeatCb
      ≠ SysTime.HeartbeatCallback.null ∧
    (∃ v st', SysTime.now samplePlatform 1000
        (SysTime.init samplePlatform .null SysTime.State.zero) = some (v, st') ∧
      st'.tickBase = 0 ∧ st'.heartbeatCb = SysTime.HeartbeatCallback.emptyHeartbeat) ∧
    (∃ st', ISR_SysTick samplePlatform
        (SysTime.init samplePlatform .null SysTime.State.zero) = some st' ∧
      st'.lastTick = 0 ∧ st'.heartbeatCb = SysTime.HeartbeatCallback.emptyHeartbeat) := by
  refine ⟨by decide, by decide, ?_, ?_⟩
  · obtain ⟨⟨v, st', h, hb, hc, -⟩, -⟩ :=
      single_writer_discipline samplePlatform
        (SysTime.init samplePlatform .null SysTime.State.zero) 1000 (by decide) (by decide)
    exact ⟨v, st', h, hb, hc⟩
  · obtain ⟨-, ⟨st', h, hl, hc, -⟩⟩ :=
      single_writer_discipline samplePlatform
        (SysTime.init samplePlatform .null SysTime.State.zero) 1000 (by decide) (by decide)
    exact ⟨st', h, hl, hc⟩

/-- C16: for every prior state and every callback argument, after `init(hbcb)`
`tickBase = 0` and `lastTick = 0`, the installed heartbeat is `hbcb` when `hbcb` is not
null and `emptyHeartbeat` when it is, the reload register holds `SYSTICK_RELOAD`, which
is `(CPU_HZ / 8) / 50 - 1` in unsigned 32-bit arithmetic (the plain difference when
`400 <= CPU_HZ < 2^32`), the control register holds 3 and the counter register 0. -/
theorem init_resets_and_programs_systick (pf : Platform)
    (hbcb : SysTime.HeartbeatCallback) (st0 : SysTime.State) :
    (SysTime.init pf hbcb st0).tickBase = 0 ∧
    (SysTime.init pf hbcb st0).lastTick = 0 ∧
    (hbcb ≠ SysTime.HeartbeatCallback.null → (SysTime.init pf hbcb st0).heartbeatCb = hbcb) ∧
    (hbcb = SysTime.HeartbeatCallback.null →
      (SysTime.init pf hbcb st0).heartbeatCb = SysTime.HeartbeatCallback.emptyHeartbeat) ∧
    (SysTime.init pf hbcb st0).NVIC.SysTick_RELOAD = SYSTICK_RELOAD pf ∧
    SYSTICK_RELOAD pf = ((pf.CPU_HZ / 8) % 2 ^ 32 / 50 + 2 ^ 32 - 1) % 2 ^ 32 ∧
    (400 ≤ pf.CPU_HZ → pf.CPU_HZ < 2 ^ 32 → SYSTICK_RELOAD pf = pf.CPU_HZ / 8 / 50 - 1) ∧
    (SysTime.init pf hbcb st0).NVIC.SysTick_CS = 3 ∧
    (SysTime.init pf hbcb st0).NVIC.SysTick = 0 ∧
    (SysTime.init pf hbcb st0).heartbeats = st0.heartbeats := by
  refine ⟨rfl, rfl, ?_, ?_, rfl, rfl, ?_, rfl, rfl, rfl⟩
  · intro h
    simp [SysTime.init, h]
  · intro h
    simp [SysTime.init, h]
  · intro h1 h2
    unfold SYSTICK_RELOAD SYSTICK_HZ SYSTICK_IRQ_HZ
    omega

theorem init_resets_and_programs_systick_witness :
    (SysTime.init samplePlatform (.user 3)
      { SysTime.State.zero with tickBase := 77, lastTick := 99 }).tickBase = 0 ∧
    (SysTime.init samplePlatform (.user 3)
      { SysTime.State.zero with tickBase := 77, lastTick := 99 }).heartbeatCb
        = SysTime.HeartbeatCallback.user 3 ∧
    SYSTICK_RELOAD samplePlatform = 72000000 / 8 / 50 - 1 :=
  ⟨(init_resets_and_programs_systick samplePlatform (.user 3)
      { SysTime.State.zero with tickBase := 77, lastTick := 99 }).1,
   (init_resets_and_programs_systick samplePlatform (.user 3)
      { SysTime.State.zero with tickBase := 77, lastTick := 99 }).2.2.1 (by decide),
   (init_resets_and_programs_systick samplePlatform (.user 3)
      { SysTime.State.zero with tickBase := 77, lastTick := 99 }).2.2.2.2.2.2.1
        (by decide) (by decide)⟩

/-! ## Claims about the accuracy of the fixed-point scaling -/

/-- Multiply-then-shift against the exact quotient, for natural numbers: with
`c = P * 2^32 / R`, the value `f * c / 2^32` is `f * P / R` or one less. -/
theorem mul_shift_bounds (P R f : Nat) (hR : 0 < R) (hR32 : R ≤ 2 ^ 32) (hf : f ≤ R) :
    f * (P * 2 ^ 32 / R) / 2 ^ 32 ≤ f * P / R ∧
    f * P / R ≤ f * (P * 2 ^ 32 / R) / 2 ^ 32 + 1 := by
  have hc1 : R * (P * 2 ^ 32 / R) ≤ P * 2 ^ 32 := Nat.mul_div_le _ _
  have hc2 : P * 2 ^ 32 < R * (P * 2 ^ 32 / R) + R := by
    have h := Nat.div_add_mod (P * 2 ^ 32) R
    have hm := Nat.mod_lt (P * 2 ^ 32) hR
    omega
  have hs1 : 2 ^ 32 * (f * (P * 2 ^ 32 / R) / 2 ^ 32) ≤ f * (P * 2 ^ 32 / R) :=
    Nat.mul_div_le _ _
  have hs2 : f * (P * 2 ^ 32 / R) + 1
      ≤ 2 ^ 32 * (f * (P * 2 ^ 32 / R) / 2 ^ 32) + 2 ^ 32 := by
    have h := Nat.div_add_mod (f * (P * 2 ^ 32 / R)) (2 ^ 32)
    have hm := Nat.mod_lt (f * (P * 2 ^ 32 / R)) (by norm_num : 0 < 2 ^ 32)
    omega
  generalize P * 2 ^ 32 / R = c at *
  generalize f * c / 2 ^ 32 = s at *
  constructor
  · rw [Nat.le_div_iff_mul_le hR]
    have h1 : f * (R * c) ≤ f * (P * 2 ^ 32) := Nat.mul_le_mul_left f hc1
    have h2 : R * (2 ^ 32 * s) ≤ R * (f * c) := Nat.mul_le_mul_left R hs1
    have h3 : (s * R) * 2 ^ 32 ≤ (f * P) * 2 ^ 32 := by nlinarith
    exact Nat.le_of_mul_le_mul_right h3 (by norm_num)
  · have hlt : f * P / R < s + 2 := by
      rw [Nat.div_lt_iff_lt_mul hR]
      have h1 : f * (P * 2 ^ 32) ≤ f * (R * c + R) := Nat.mul_le_mul_left f (le_of_lt hc2)
      have h2 : R * (f * c + 1) ≤ R * (2 ^ 32 * s + 2 ^ 32) := Nat.mul_le_mul_left R hs2
      have h3 : f * R ≤ 2 ^ 32 * R := Nat.mul_le_mul_right R (le_trans hf hR32)
      have h4 : (f * P) * 2 ^ 32 < ((s + 2) * R) * 2 ^ 32 := by nlinarith
      exact Nat.lt_of_mul_lt_mul_right h4
    omega

/-- C15 (fixed-point accuracy): with `P = hzTicks(SYSTICK_IRQ_HZ)`, `R = SYSTICK_RELOAD`,
`0 < R < 2^32` and `P * 2^32 < 2^64`, the scale computed by `now()` is
`floor(P * 2^32 / R)`, and for every `f` with `0 <= f <= R` the 64-bit product
`f * scale` does not overflow and `(f * scale) >> 32` equals `floor(f * P / R)` or
`floor(f * P / R) - 1`. -/
theorem multiply_shift_within_one_tick (pf : Platform) (f : Nat)
    (hR : 0 < SYSTICK_RELOAD pf)
    (hP : pf.hzTicks SYSTICK_IRQ_HZ * 2 ^ 32 < 2 ^ 64)
    (hf : f ≤ SYSTICK_RELOAD pf) :
    SYSTICK_RELOAD pf < 2 ^ 32 ∧
    SysTime.tickScale pf = pf.hzTicks SYSTICK_IRQ_HZ * 2 ^ 32 / SYSTICK_RELOAD pf ∧
    f * SysTime.tickScale pf < 2 ^ 64 ∧
    SysTime.scaledFraction pf f = (f * SysTime.tickScale pf) >>> 32 ∧
    (SysTime.scaledFraction pf f = f * pf.hzTicks SYSTICK_IRQ_HZ / SYSTICK_RELOAD pf ∨
      SysTime.scaledFraction pf f = f * pf.hzTicks SYSTICK_IRQ_HZ / SYSTICK_RELOAD pf - 1) := by
  have hlt := SysTime.reload_lt pf
  have hX : (pf.hzTicks SYSTICK_IRQ_HZ * 0x100000000) % 2 ^ 64
      = pf.hzTicks SYSTICK_IRQ_HZ * 2 ^ 32 := Nat.mod_eq_of_lt (by omega)
  have hscale : SysTime.tickScale pf
      = pf.hzTicks SYSTICK_IRQ_HZ * 2 ^ 32 / SYSTICK_RELOAD pf := by
    unfold SysTime.tickScale
    rw [hX]
  have hprod := SysTime.tickScale_mul_le pf hf
  rw [hX] at hprod
  have heq := SysTime.scaledFraction_eq pf hf
  have hb := mul_shift_bounds (pf.hzTicks SYSTICK_IRQ_HZ) (SYSTICK_RELOAD pf) f hR
    (le_of_lt hlt) hf
  rw [← hscale, ← heq] at hb
  refine ⟨hlt, hscale, lt_of_le_of_lt hprod hP, ?_, ?_⟩
  · rw [heq, Nat.shiftRight_eq_div_pow]
  · omega

theorem multiply_shift_within_one_tick_witness :
    0 < SYSTICK_RELOAD samplePlatform ∧
    samplePlatform.hzTicks SYSTICK_IRQ_HZ * 2 ^ 32 < 2 ^ 64 ∧
    (90000 : Nat) ≤ SYSTICK_RELOAD samplePlatform ∧
    90000 * SysTime.tickScale samplePlatform < 2 ^ 64 ∧
    (SysTime.scaledFraction samplePlatform 90000
        = 90000 * samplePlatform.hzTicks SYSTICK_IRQ_HZ / SYSTICK_RELOAD samplePlatform ∨
      SysTime.scaledFraction samplePlatform 90000
        = 90000 * samplePlatform.hzTicks SYSTICK_IRQ_HZ / SYSTICK_RELOAD samplePlatform - 1) :=
  ⟨by decide, by decide, by decide,
   (multiply_shift_within_one_tick samplePlatform 90000
     (by decide) (by decide) (by decide)).2.2.1,
   (multiply_shift_within_one_tick samplePlatform 90000
     (by decide) (by decide) (by decide)).2.2.2.2⟩

/-- C19: with `R = SYSTICK_RELOAD > 0`, the component `(f * scale) >> 32` that `now()`
adds is non-decreasing in `f` and never exceeds `P = hzTicks(SYSTICK_IRQ_HZ)` for
`0 <= f <= R` (the scale being `floor(P * 2^32 / R)` when `P * 2^32 < 2^64`);
consequently, for a reading in `0..R` and tick values below `2 ^ 63`, the value `now()`
returns lies between `tickBase` and `tickBase + 2 * P`. -/
theorem scaled_fraction_monotone_and_now_bounded (pf : Platform) (st : SysTime.State)
    (f g live : Nat)
    (hR : SYSTICK_RELOAD pf ≠ 0)
    (hfg : f ≤ g) (hg : g ≤ SYSTICK_RELOAD pf)
    (hlive : live ≤ SYSTICK_RELOAD pf)
    (hrange : st.tickBase + 2 * pf.hzTicks SYSTICK_IRQ_HZ < 2 ^ 63) :
    SysTime.scaledFraction pf f ≤ SysTime.scaledFraction pf g ∧
    SysTime.scaledFraction pf g ≤ pf.hzTicks SYSTICK_IRQ_HZ ∧
    (pf.hzTicks SYSTICK_IRQ_HZ * 2 ^ 32 < 2 ^ 64 →
      SysTime.tickScale pf = pf.hzTicks SYSTICK_IRQ_HZ * 2 ^ 32 / SYSTICK_RELOAD pf) ∧
    ∃ v st', SysTime.now pf live st = some (v, st') ∧
      st.tickBase ≤ v ∧ v ≤ st.tickBase + 2 * pf.hzTicks SYSTICK_IRQ_HZ := by
  have hmono : SysTime.scaledFraction pf f ≤ SysTime.scaledFraction pf g := by
    rw [SysTime.scaledFraction_eq pf (le_trans hfg hg), SysTime.scaledFraction_eq pf hg]
    exact Nat.div_le_div_right (Nat.mul_le_mul_right _ hfg)
  have hs := SysTime.scaledFraction_le pf (SysTime.fractionalOf_le pf hlive)
  rw [SysTime.fractionalOf_of_le pf hlive] at hs
  have hc := SysTime.candidate_eq pf st hlive (by omega)
  refine ⟨hmono, SysTime.scaledFraction_le pf hg, ?_, _, _, SysTime.now_eq pf live st hR, ?_⟩
  · intro hP
    have hX : (pf.hzTicks SYSTICK_IRQ_HZ * 0x100000000) % 2 ^ 64
        = pf.hzTicks SYSTICK_IRQ_HZ * 2 ^ 32 := Nat.mod_eq_of_lt (by omega)
    unfold SysTime.tickScale
    rw [hX]
  · split
    · rw [hc, Nat.mod_eq_of_lt (by omega)]
      omega
    · omega

theorem scaled_fraction_monotone_and_now_bounded_witness :
    SYSTICK_RELOAD samplePlatform ≠ 0 ∧
    SysTime.scaledFraction samplePlatform 1000 ≤ SysTime.scaledFraction samplePlatform 90000 ∧
    SysTime.scaledFraction samplePlatform 90000 ≤ samplePlatform.hzTicks SYSTICK_IRQ_HZ ∧
    ∃ v st', SysTime.now samplePlatform 179000
        { SysTime.State.zero with tickBase := 40000000, lastTick := 59999999 }
          = some (v, st') ∧
      40000000 ≤ v ∧ v ≤ 40000000 + 2 * samplePlatform.hzTicks SYSTICK_IRQ_HZ := by
  obtain ⟨h1, h2, -, h3⟩ :=
    scaled_fraction_monotone_and_now_bounded samplePlatform
      { SysTime.State.zero with tickBase := 40000000, lastTick := 59999999 }
      1000 90000 179000 (by decide) (by decide) (by decide) (by decide) (by decide)
  exact ⟨by decide, h1, h2, h3⟩

/-! ## Claims about the interrupt-enable bits -/

theorem testBit_clear_other {x k i : Nat} (hx : x < 2 ^ 32) (hk : k < 32) (hi : i ≠ k) :
    ((x &&& not32 (2 ^ k)) % 2 ^ 32).testBit i = x.testBit i := by
  rw [testBit_clear _ _ _ hk]
  by_cases h32 : i < 32
  · have hne : ¬ k = i := fun h => hi h.symm
    simp [h32, hne]
  · rw [testBit_high_of_lt hx (by omega)]
    simp

theorem testBit_set_other {x k i : Nat} (hx : x < 2 ^ 32) (hi : i ≠ k) :
    ((x ||| 2 ^ k) % 2 ^ 32).testBit i = x.testBit i := by
  rw [testBit_set]
  by_cases h32 : i < 32
  · have hne : ¬ k = i := fun h => hi h.symm
    simp [h32, hne]
  · rw [testBit_high_of_lt hx (by omega)]
    simp [h32]

theorem testBit_clear_self (x k : Nat) (hk : k < 32) :
    ((x &&& not32 (2 ^ k)) % 2 ^ 32).testBit k = false := by
  rw [testBit_clear _ _ _ hk]
  simp

theorem testBit_set_self (x k : Nat) (hk : k < 32) :
    ((x ||| 2 ^ k) % 2 ^ 32).testBit k = true := by
  rw [testBit_set]
  simp [hk]

namespace HwTimer

theorem enableCompareCaptureIsr_eq (k : Nat) (h4 : k ≤ 4) (tim : TIM_t) :
    enableCompareCaptureIsr (k : Int) tim = some { tim with
      SR := (tim.SR &&& not32 (2 ^ k)) % 2 ^ 32,
      DIER := (tim.DIER ||| 2 ^ k) % 2 ^ 32 } := by
  have e1 : shl1 (k : Int) = some (2 ^ k) := by
    rw [shl1_eq (by omega) (by omega), Int.toNat_ofNat]
  simp only [enableCompareCaptureIsr, e1]

theorem disableCompareCaptureIsr_eq (k : Nat) (h4 : k ≤ 4) (tim : TIM_t) :
    disableCompareCaptureIsr (k : Int) tim = some { tim with
      DIER := (tim.DIER &&& not32 (2 ^ k)) % 2 ^ 32 } := by
  have e1 : shl1 (k : Int) = some (2 ^ k) := by
    rw [shl1_eq (by omega) (by omega), Int.toNat_ofNat]
  simp only [disableCompareCaptureIsr, e1]

theorem enableUpdateIsr_eq (tim : TIM_t) :
    enableUpdateIsr tim = { tim with
      SR := (tim.SR &&& not32 (2 ^ 0)) % 2 ^ 32,
      DIER := (tim.DIER ||| 2 ^ 0) % 2 ^ 32 } := by
  simp only [enableUpdateIsr, Nat.one_shiftLeft]

theorem disableUpdateIsr_eq (tim : TIM_t) :
    disableUpdateIsr tim = { tim with DIER := (tim.DIER &&& not32 (2 ^ 0)) % 2 ^ 32 } := by
  simp only [disableUpdateIsr, Nat.one_shiftLeft]

theorem updateIsrIsEnabled_eq (tim : TIM_t) :
    updateIsrIsEnabled tim = tim.DIER.testBit 0 := by
  unfold updateIsrIsEnabled
  rw [Nat.one_shiftLeft, Bool.eq_iff_iff, decide_eq_true_iff]
  exact and_two_pow_ne_zero_iff _ _

end HwTimer

/-- C17: for every register state and every channel `ch` in 1..4, right after
`enableCompareCaptureIsr(ch)` bit `ch` of DIER is set and bit `ch` of `status()` is clear;
after `disableCompareCaptureIsr(ch)` bit `ch` of DIER is clear; neither call changes any
other bit of DIER. -/
theorem compareCaptureIsr_enable_disable (tim : TIM_t) (ch : Int)
    (hwf : tim.wf) (h1 : 1 ≤ ch) (h4 : ch ≤ 4) :
    (∃ t1, HwTimer.enableCompareCaptureIsr ch tim = some t1 ∧
      t1.DIER.testBit ch.toNat = true ∧
      (HwTimer.status t1).testBit ch.toNat = false ∧
      (∀ i, i ≠ ch.toNat → t1.DIER.testBit i = tim.DIER.testBit i)) ∧
    (∃ t2, HwTimer.disableCompareCaptureIsr ch tim = some t2 ∧
      t2.DIER.testBit ch.toNat = false ∧
      (∀ i, i ≠ ch.toNat → t2.DIER.testBit i = tim.DIER.testBit i)) := by
  obtain ⟨k, rfl⟩ := Int.eq_ofNat_of_zero_le (by omega : 0 ≤ ch)
  have hk4 : k ≤ 4 := by omega
  have hD : tim.DIER < 2 ^ 32 := hwf.2.1
  rw [Int.toNat_ofNat]
  refine ⟨⟨_, HwTimer.enableCompareCaptureIsr_eq k hk4 tim, ?_, ?_, ?_⟩,
    ⟨_, HwTimer.disableCompareCaptureIsr_eq k hk4 tim, ?_, ?_⟩⟩
  · exact testBit_set_self _ _ (by omega)
  · show (((tim.SR &&& not32 (2 ^ k)) % 2 ^ 32 &&& (tim.DIER ||| 2 ^ k) % 2 ^ 32)
      % 2 ^ 16).testBit k = false
    rw [Nat.testBit_mod_two_pow, Nat.testBit_and, testBit_clear_self _ _ (by omega)]
    simp
  · intro i hi
    exact testBit_set_other hD hi
  · exact testBit_clear_self _ _ (by omega)
  · intro i hi
    exact testBit_clear_other hD (by omega) hi

theorem compareCaptureIsr_enable_disable_witness :
    ({ TIM_t.zero with SR := 0x1f, DIER := 0x03 } : TIM_t).wf ∧ (1 : Int) ≤ 3 ∧ (3 : Int) ≤ 4 ∧
    (∃ t1, HwTimer.enableCompareCaptureIsr 3 { TIM_t.zero with SR := 0x1f, DIER := 0x03 }
        = some t1 ∧
      t1.DIER.testBit (3 : Int).toNat = true ∧
      (HwTimer.status t1).testBit (3 : Int).toNat = false) := by
  obtain ⟨⟨t1, h, hb, hs, -⟩, -⟩ :=
    compareCaptureIsr_enable_disable { TIM_t.zero with SR := 0x1f, DIER := 0x03 } 3
      (by simp [TIM_t.wf, TIM_t.zero]) (by decide) (by decide)
  exact ⟨by simp [TIM_t.wf, TIM_t.zero], by decide, by decide, t1, h, hb, hs⟩

/-- C18: for every register state, after `enableUpdateIsr()` the call
`updateIsrIsEnabled()` returns true and bit 0 of `status()` is clear; after
`disableUpdateIsr()` the call `updateIsrIsEnabled()` returns false; neither call changes
any bit of DIER other than bit 0. -/
theorem updateIsr_enable_disable (tim : TIM_t) (hwf : tim.wf) :
    HwTimer.updateIsrIsEnabled (HwTimer.enableUpdateIsr tim) = true ∧
    (HwTimer.status (HwTimer.enableUpdateIsr tim)).testBit 0 = false ∧
    HwTimer.updateIsrIsEnabled (HwTimer.disableUpdateIsr tim) = false ∧
    (∀ i, i ≠ 0 → (HwTimer.enableUpdateIsr tim).DIER.testBit i = tim.DIER.testBit i) ∧
    (∀ i, i ≠ 0 → (HwTimer.disableUpdateIsr tim).DIER.testBit i = tim.DIER.testBit i) := by
  have hD : tim.DIER < 2 ^ 32 := hwf.2.1
  rw [HwTimer.updateIsrIsEnabled_eq, HwTimer.updateIsrIsEnabled_eq,
    HwTimer.enableUpdateIsr_eq, HwTimer.disableUpdateIsr_eq]
  refine ⟨?_, ?_, ?_, ?_, ?_⟩
  · exact testBit_set_self _ _ (by omega)
  · show (((tim.SR &&& not32 (2 ^ 0)) % 2 ^ 32 &&& (tim.DIER ||| 2 ^ 0) % 2 ^ 32)
      % 2 ^ 16).testBit 0 = false
    rw [Nat.testBit_mod_two_pow, Nat.testBit_and, testBit_clear_self _ _ (by omega)]
    simp
  · exact testBit_clear_self _ _ (by omega)
  · intro i hi
    exact testBit_set_other hD hi
  · intro i hi
    exact testBit_clear_other hD (by omega) hi

theorem updateIsr_enable_disable_witness :
    ({ TIM_t.zero with SR := 0x1f, DIER := 0x06 } : TIM_t).wf ∧
    HwTimer.updateIsrIsEnabled
      (HwTimer.enableUpdateIsr { TIM_t.zero with SR := 0x1f, DIER := 0x06 }) = true ∧
    (HwTimer.status
      (HwTimer.enableUpdateIsr { TIM_t.zero with SR := 0x1f, DIER := 0x06 })).testBit 0
        = false ∧
    HwTimer.updateIsrIsEnabled
      (HwTimer.disableUpdateIsr { TIM_t.zero with SR := 0x1f, DIER := 0x06 }) = false :=
  ⟨by simp [TIM_t.wf, TIM_t.zero],
   (updateIsr_enable_disable { TIM_t.zero with SR := 0x1f, DIER := 0x06 }
     (by simp [TIM_t.wf, TIM_t.zero])).1,
   (updateIsr_enable_disable { TIM_t.zero with SR := 0x1f, DIER := 0x06 }
     (by simp [TIM_t.wf, TIM_t.zero])).2.1,
   (updateIsr_enable_disable { TIM_t.zero with SR := 0x1f, DIER := 0x06 }
     (by simp [TIM_t.wf, TIM_t.zero])).2.2.1⟩

/-! ## Frame of the channel enable operations -/

/-- C20: for distinct channels `ch` and `ch'` in 1..4 and every register state,
`enableChannel(ch)` and `disableChannel(ch)` leave `channelIsEnabled(ch')` unchanged,
leave DIER unchanged, and change no bit of CCER other than bit `(ch-1)*4`. -/
theorem channel_enable_disable_frame (tim : TIM_t) (ch ch' : Int) (hwf : tim.wf)
    (h1 : 1 ≤ ch) (h4 : ch ≤ 4) (h1' : 1 ≤ ch') (h4' : ch' ≤ 4) (hne : ch ≠ ch') :
    (∃ t1 b, HwTimer.enableChannel ch tim = some t1 ∧
      HwTimer.channelIsEnabled ch' tim = some b ∧
      HwTimer.channelIsEnabled ch' t1 = some b ∧
      t1.DIER = tim.DIER ∧
      (∀ i, i ≠ ((ch - 1) * 4).toNat → t1.CCER.testBit i = tim.CCER.testBit i)) ∧
    (∃ t2 b, HwTimer.disableChannel ch tim = some t2 ∧
      HwTimer.channelIsEnabled ch' tim = some b ∧
      HwTimer.channelIsEnabled ch' t2 = some b ∧
      t2.DIER = tim.DIER ∧
      (∀ i, i ≠ ((ch - 1) * 4).toNat → t2.CCER.testBit i = tim.CCER.testBit i)) := by
  obtain ⟨k, rfl⟩ := Int.eq_ofNat_of_zero_le (by omega : 0 ≤ ch)
  obtain ⟨k', rfl⟩ := Int.eq_ofNat_of_zero_le (by omega : 0 ≤ ch')
  have hk1 : 1 ≤ k := by omega
  have hk4 : k ≤ 4 := by omega
  have hk1' : 1 ≤ k' := by omega
  have hk4' : k' ≤ 4 := by omega
  have hkk : (k' - 1) * 4 ≠ (k - 1) * 4 := by
    intro h
    apply hne
    have : k = k' := by omega
    rw [this]
  have hC : tim.CCER < 2 ^ 32 := hwf.2.2.2.2.1
  have hidx : (((k : Int) - 1) * 4).toNat = (k - 1) * 4 := by omega
  rw [hidx]
  refine ⟨⟨_, _, HwTimer.enableChannel_eq k hk1 hk4 tim,
      HwTimer.channelIsEnabled_eq k' hk1' hk4' tim, ?_, rfl, ?_⟩,
    ⟨_, _, HwTimer.disableChannel_eq k hk1 hk4 tim,
      HwTimer.channelIsEnabled_eq k' hk1' hk4' tim, ?_, rfl, ?_⟩⟩
  · rw [HwTimer.channelIsEnabled_eq k' hk1' hk4']
    congr 1
    exact testBit_set_other hC hkk
  · intro i hi
    exact testBit_set_other hC hi
  · rw [HwTimer.channelIsEnabled_eq k' hk1' hk4']
    congr 1
    exact testBit_clear_other hC (by omega) hkk
  · intro i hi
    exact testBit_clear_other hC (by omega) hi

theorem channel_enable_disable_frame_witness :
    ({ TIM_t.zero with CCER := 0x1001, DIER := 0x1e } : TIM_t).wf ∧
    (1 : Int) ≤ 2 ∧ (2 : Int) ≤ 4 ∧ (1 : Int) ≤ 4 ∧ (4 : Int) ≤ 4 ∧ (2 : Int) ≠ 4 ∧
    (∃ t1 b, HwTimer.enableChannel 2 { TIM_t.zero with CCER := 0x1001, DIER := 0x1e }
        = some t1 ∧
      HwTimer.channelIsEnabled 4 { TIM_t.zero with CCER := 0x1001, DIER := 0x1e } = some b ∧
      HwTimer.channelIsEnabled 4 t1 = some b ∧
      t1.DIER = 0x1e) := by
  obtain ⟨⟨t1, b, h, hb, hb1, hd, -⟩, -⟩ :=
    channel_enable_disable_frame { TIM_t.zero with CCER := 0x1001, DIER := 0x1e } 2 4
      (by simp [TIM_t.wf, TIM_t.zero]) (by decide) (by decide) (by decide) (by decide)
      (by decide)
  exact ⟨by simp [TIM_t.wf, TIM_t.zero], by decide, by decide, by decide, by decide,
    by decide, t1, b, h, hb, hb1, hd⟩
